import Mathlib

/-!
# LinInterp: piecewise-linear interpolation over a caller-owned table

A shallow embedding of `LinInterp<xType, yType>::Interp` (src/include/LinInterp.hpp).

* The raw array `pointA` is a `List`; its length is the capacity of the backing store.
  Every read `pointA[k]` is an `Option`-valued lookup, a miss being the fault `outOfBounds`.
* `numPoints`, `i` and `sectionNum` are `uint32_t`: naturals with explicit `% 2^32`.
* `double` is modelled by exact rational arithmetic (`ℚ`); the one operation of the blend
  that has no rational value, the quotient by a zero `xDiff`, makes `yVal` equal to `none`.
  Where the rounding of `double` operations bears on a result, `blendInt32Rounded` carries
  it explicitly, for every rounding that satisfies `IsRounding`.
* The template parameters are described by two records of operations, `XType` and `YType`,
  listing exactly the operations `Interp` applies to values of those types.
-/

namespace LinInterpNs

/-- Conversion of an integer to `int32_t` (wrap-around modulo `2^32`). -/
def wrapInt32 (z : Int) : Int := (z + 2147483648) % 4294967296 - 2147483648

/-- Conversion of an integer to `uint32_t`. -/
def wrapUInt32 (z : Int) : Int := z % 4294967296

/-- Conversion of a real number to an integer: the fractional part is discarded
(rounding toward zero). -/
def truncQ (q : ℚ) : Int := Int.tdiv q.num (q.den : Int)

/-- Possible statuses returned in `InterpResult`. -/
inductive status_t where
  | OK
  | X_VALUE_OUT_OF_RANGE
  deriving DecidableEq, Repr

/-- Modelled from the spec: `Point<X,Y>` of Point.hpp, a pair record holding one
x-coordinate and one y-coordinate of independently chosen numeric types. The field
names are the ones `Interp` uses. -/
structure Point (X Y : Type) where
  xVal : X
  yVal : Y
  deriving DecidableEq, Repr

/-- The object returned by `Interp`. `yVal` is `none` when the blend divided by a zero
`xDiff` (the C++ value is then an infinity or a NaN, which has no exact counterpart);
`status` and `sectionNum` are set all the same, as in the source. -/
structure InterpResult (Y : Type) where
  status : status_t
  yVal : Option Y
  sectionNum : Nat
  deriving DecidableEq, Repr

/-- Ways a call can leave the defined behaviour of the embedding. -/
inductive Fault where
  | outOfBounds
  | outOfFuel
  deriving DecidableEq, Repr

/-- The operations `Interp` applies to values of `xType`, besides `operator<`
(which is the order of `X`). -/
structure XType (X : Type) where
  /-- The value of `(double)(a - b)`, the difference being taken in `xType`. -/
  subToDouble : X → X → ℚ
  /-- The value of `(int32_t)a`. -/
  toInt32 : X → Int

/-- The operations `Interp` applies to values of `yType`. -/
structure YType (Y : Type) where
  /-- The value of `a - b` stored into a `yType`. -/
  sub : Y → Y → Y
  /-- Promotion of a `yType` to `double` in the product `double * yDiff`. -/
  toDouble : Y → ℚ
  /-- The cast `(yType)d` of a `double`. -/
  ofDouble : ℚ → Y
  /-- The value of `a + b` stored into a `yType`. -/
  add : Y → Y → Y

/-- `xType = double`, in exact arithmetic. The cast to `int32_t` truncates toward zero;
a value outside the `int32_t` range, for which C++ leaves the cast undefined, wraps. -/
def doubleX : XType ℚ where
  subToDouble a b := a - b
  toInt32 a := wrapInt32 (truncQ a)

/-- `yType = double`, in exact arithmetic. -/
def doubleY : YType ℚ where
  sub a b := a - b
  toDouble a := a
  ofDouble d := d
  add a b := a + b

/-- `xType = int32_t`: values are integers, the difference wraps to 32 bits. -/
def int32X : XType Int where
  subToDouble a b := (wrapInt32 (a - b) : Int)
  toInt32 a := wrapInt32 a

/-- `xType = uint32_t`: values are integers in `[0, 2^32)`, the difference is taken
modulo `2^32`. -/
def uint32X : XType Int where
  subToDouble a b := (wrapUInt32 (a - b) : Int)
  toInt32 a := wrapInt32 a

/-- `yType = int32_t`: the cast from `double` truncates toward zero. -/
def int32Y : YType Int where
  sub a b := wrapInt32 (a - b)
  toDouble a := (a : ℚ)
  ofDouble d := wrapInt32 (truncQ d)
  add a b := wrapInt32 (a + b)

/-- The two-point table of the unit tests: (0,0), (1,1). -/
def table2 : List (Point ℚ ℚ) := [⟨0, 0⟩, ⟨1, 1⟩]

/-- The three-point table of `SectionNumTest` and `OnlyLooksAtNumPointsTest`:
(0,0), (1,1), (2,2). -/
def table3 : List (Point ℚ ℚ) := [⟨0, 0⟩, ⟨1, 1⟩, ⟨2, 2⟩]

/-- A `double` table with a non-integer x-value: (0,0), (1.5,3). -/
def tableHalf : List (Point ℚ ℚ) := [⟨0, 0⟩, ⟨3 / 2, 3⟩]

/-- A `double` table whose integer x-values lie at the two ends of the `int32_t` range:
(-2147483648, 0), (2147483647, 1). -/
def tableWide : List (Point ℚ ℚ) := [⟨-2147483648, 0⟩, ⟨2147483647, 1⟩]

/-- A `uint32_t`-indexed table whose x-values are `2^31` apart: (0, 0), (2147483648, 1). -/
def tableU32 : List (Point Int ℚ) := [⟨0, 0⟩, ⟨2147483648, 1⟩]

/-- An `int32_t` table with a falling segment: (0, 1), (2, 0). -/
def tableFall : List (Point Int Int) := [⟨0, 1⟩, ⟨2, 0⟩]

/-- An integer of the range `[-2^30, 2^30)`: sums and differences of two such integers
fit `int32_t`. -/
def Fits30 (z : Int) : Prop := -1073741824 ≤ z ∧ z < 1073741824

instance (z : Int) : Decidable (Fits30 z) := by
  unfold Fits30; infer_instance

/-- The active x-values of a `double` table are integers of the `int32_t` range. -/
def IntegerXs (pointA : List (Point ℚ ℚ)) (numPoints : Nat) : Prop :=
  ∀ p ∈ pointA.take numPoints,
    p.xVal.den = 1 ∧ -2147483648 ≤ p.xVal.num ∧ p.xVal.num < 2147483648

instance (pointA : List (Point ℚ ℚ)) (numPoints : Nat) :
    Decidable (IntegerXs pointA numPoints) := by
  unfold IntegerXs; infer_instance

/-- The active y-values of a `double` table never decrease along the table. -/
def NonDecreasingYs (pointA : List (Point ℚ ℚ)) (numPoints : Nat) : Prop :=
  ((pointA.take numPoints).map Point.yVal).Pairwise (fun a b => a ≤ b)

instance (pointA : List (Point ℚ ℚ)) (numPoints : Nat) :
    Decidable (NonDecreasingYs pointA numPoints) := by
  unfold NonDecreasingYs; infer_instance

/-- How the `while` loop of `Interp` is left. -/
inductive LoopExit where
  /-- The loop condition `pointA[i].xVal < xVal` was false at index `i`. -/
  | found (i : Nat)
  /-- The guard `i == numPoints - 1` was true at index `i`. -/
  | clamp (i : Nat)
  /-- The read `pointA[i]` was outside the backing store. -/
  | outOfBounds
  /-- The iteration budget was used up. -/
  | outOfFuel
  deriving DecidableEq, Repr

section
variable {X Y : Type} [LinearOrder X]

/-- The loop `while(pointA[i].xVal < xVal) { if(i == numPoints - 1) return ...; i++; }`
started at index `i`; `fuel` bounds the number of evaluations of the loop condition. -/
def whileLoop (pointA : List (Point X Y)) (numPoints : Nat) (xVal : X) : Nat → Nat → LoopExit
  | 0, _ => LoopExit.outOfFuel
  | fuel + 1, i =>
    match pointA[i]? with
    | none => LoopExit.outOfBounds
    | some p =>
      if p.xVal < xVal then
        if i = (numPoints + 4294967295) % 4294967296 then LoopExit.clamp i
        else whileLoop pointA numPoints xVal fuel ((i + 1) % 4294967296)
      else LoopExit.found i

/-- The line `int32_t xDiff = (int32_t)pointA[i].xVal - (int32_t)pointA[i-1].xVal;`. -/
def xDiff (xt : XType X) (pPrev pI : Point X Y) : Int :=
  wrapInt32 (xt.toInt32 pI.xVal - xt.toInt32 pPrev.xVal)

/-- The line `result.yVal = (yType)(((double)(xVal-pointA[i-1].xVal)*(yDiff))/(double)xDiff)
+ pointA[i-1].yVal;`, with `yDiff = pointA[i].yVal - pointA[i-1].yVal`. -/
def blend (xt : XType X) (yt : YType Y) (pPrev pI : Point X Y) (xVal : X) : Option Y :=
  let yDiff : Y := yt.sub pI.yVal pPrev.yVal
  if xDiff xt pPrev pI = 0 then none
  else some (yt.add
    (yt.ofDouble ((xt.subToDouble xVal pPrev.xVal * yt.toDouble yDiff) / ((xDiff xt pPrev pI : Int) : ℚ)))
    pPrev.yVal)

/-- `LinInterp<xType, yType>::Interp(xVal)` on the table `pointA` with `numPoints`
active points. -/
def Interp (xt : XType X) (yt : YType Y) (pointA : List (Point X Y)) (numPoints : Nat)
    (xVal : X) : Except Fault (InterpResult Y) :=
  match pointA[0]? with
  | none => Except.error Fault.outOfBounds
  | some p0 =>
    if xVal < p0.xVal then
      Except.ok ⟨status_t.X_VALUE_OUT_OF_RANGE, some p0.yVal, 0⟩
    else
      match whileLoop pointA numPoints xVal 4294967296 1 with
      | LoopExit.outOfBounds => Except.error Fault.outOfBounds
      | LoopExit.outOfFuel => Except.error Fault.outOfFuel
      | LoopExit.clamp i =>
        match pointA[i]? with
        | none => Except.error Fault.outOfBounds
        | some p =>
          Except.ok ⟨status_t.X_VALUE_OUT_OF_RANGE, some p.yVal, (i + 1) % 4294967296⟩
      | LoopExit.found i =>
        match pointA[i]?, pointA[(i + 4294967295) % 4294967296]? with
        | some pI, some pPrev =>
          Except.ok ⟨status_t.OK, blend xt yt pPrev pI xVal, i⟩
        | _, _ => Except.error Fault.outOfBounds

/-- The x-values of the `numPoints` active points, in table order. -/
def activeXs (pointA : List (Point X Y)) (numPoints : Nat) : List X :=
  (pointA.take numPoints).map Point.xVal

/-- The active x-values never decrease along the table. -/
def NonDecreasing (pointA : List (Point X Y)) (numPoints : Nat) : Prop :=
  (activeXs pointA numPoints).Pairwise (fun a b => a ≤ b)

/-- The active x-values strictly increase along the table. -/
def StrictlyAscending (pointA : List (Point X Y)) (numPoints : Nat) : Prop :=
  (activeXs pointA numPoints).Pairwise (fun a b => a < b)

instance (pointA : List (Point X Y)) (numPoints : Nat) :
    Decidable (NonDecreasing pointA numPoints) := by
  unfold NonDecreasing; infer_instance

instance (pointA : List (Point X Y)) (numPoints : Nat) :
    Decidable (StrictlyAscending pointA numPoints) := by
  unfold StrictlyAscending; infer_instance

end

/-- What is used of the rounding of a real number to a `double`: an integer of magnitude
at most `2^53` is kept, and a number of the normal range moves by at most the fraction
`2^-53` of its magnitude. -/
def IsRounding (fl : ℚ → ℚ) : Prop :=
  (∀ n : Int, |n| ≤ 9007199254740992 → fl (n : ℚ) = (n : ℚ)) ∧
  (∀ x : ℚ, 1 / 2 ^ 1022 ≤ |x| → |x| ≤ 2 ^ 1023 →
    |fl x - x| ≤ |x| / 9007199254740992)

/-- The blend of `LinInterp<int32_t, int32_t>` (line 193) with its two `double`
operations, the product and the quotient, each rounded by `fl`; the casts of `int32_t`
values to `double` are exact. -/
def blendInt32Rounded (fl : ℚ → ℚ) (pPrev pI : Point Int Int) (xVal : Int) : Option Int :=
  let yDiff : Int := int32Y.sub pI.yVal pPrev.yVal
  if xDiff int32X pPrev pI = 0 then none
  else some (int32Y.add
    (int32Y.ofDouble (fl (fl (int32X.subToDouble xVal pPrev.xVal * int32Y.toDouble yDiff)
      / ((xDiff int32X pPrev pI : Int) : ℚ))))
    pPrev.yVal)

/-- For any two active points the product of their x-distance and their y-distance is
below `2^53`, so that every product the blend forms is an integer a `double` holds
exactly. -/
def SmallProducts (pointA : List (Point Int Int)) (numPoints : Nat) : Prop :=
  ∀ p ∈ pointA.take numPoints, ∀ p2 ∈ pointA.take numPoints,
    |p2.xVal - p.xVal| * |p2.yVal - p.yVal| < 9007199254740992

instance (pointA : List (Point Int Int)) (numPoints : Nat) :
    Decidable (SmallProducts pointA numPoints) := by
  unfold SmallProducts; infer_instance

/-! ## Machine arithmetic -/

theorem wrapInt32_of_fits (z : Int) (h1 : -2147483648 ≤ z) (h2 : z < 2147483648) :
    wrapInt32 z = z := by
  unfold wrapInt32
  omega

theorem truncQ_of_nonneg {r : ℚ} (h : 0 ≤ r) : truncQ r = ⌊r⌋ := by
  unfold truncQ
  rw [Rat.floor_def, Int.tdiv_eq_ediv (Rat.num_nonneg.mpr h) (Int.natCast_nonneg _)]

theorem truncQ_neg (r : ℚ) : truncQ (-r) = -truncQ r := by
  unfold truncQ
  rw [Rat.num_neg_eq_neg_num, Rat.den_neg_eq_den, Int.neg_tdiv]

/-- Truncation keeps a non-negative number between 0 and any integer bound above it. -/
theorem truncQ_bounds_nonneg {r : ℚ} {B : Int} (h0 : 0 ≤ r) (hB : r ≤ B) :
    0 ≤ truncQ r ∧ truncQ r ≤ B := by
  rw [truncQ_of_nonneg h0]
  refine ⟨Int.floor_nonneg.mpr h0, ?_⟩
  have h : ((⌊r⌋ : Int) : ℚ) ≤ (B : ℚ) := le_trans (Int.floor_le r) hB
  exact_mod_cast h

/-- Truncation keeps a non-positive number between any integer bound below it and 0. -/
theorem truncQ_bounds_nonpos {r : ℚ} {B : Int} (h0 : r ≤ 0) (hB : (B : ℚ) ≤ r) :
    B ≤ truncQ r ∧ truncQ r ≤ 0 := by
  have hneg : truncQ r = -truncQ (-r) := by rw [truncQ_neg, neg_neg]
  have hb : -r ≤ ((-B : Int) : ℚ) := by
    push_cast
    linarith
  have := truncQ_bounds_nonneg (r := -r) (B := -B) (by linarith) hb
  omega

/-- Truncation does not see a small perturbation of a quotient of integers: for
`0 ≤ P < 2^53` and `0 < D`, a number that equals `P / D` when the division is exact and
otherwise differs from it by at most the fraction `2^-53` of it truncates like
`P / D`. -/
theorem truncQ_stable_nonneg (P D : Int) (hP0 : 0 ≤ P) (hP : P < 9007199254740992)
    (hD : 0 < D) (x : ℚ) (hdiv : D ∣ P → x = (P : ℚ) / D)
    (herr : ¬ D ∣ P → |x - (P : ℚ) / D| ≤ ((P : ℚ) / D) / 9007199254740992) :
    truncQ x = truncQ ((P : ℚ) / D) := by
  by_cases hdvd : D ∣ P
  · rw [hdiv hdvd]
  · have hm0 : P % D ≠ 0 := fun h => hdvd (Int.dvd_of_emod_eq_zero h)
    have hm1 : 0 ≤ P % D := Int.emod_nonneg P (by omega)
    have hm2 : P % D < D := Int.emod_lt_of_pos P hD
    have hsplit : D * (P / D) + P % D = P := Int.ediv_add_emod P D
    have ht0 : 0 ≤ P / D := Int.ediv_nonneg hP0 (le_of_lt hD)
    have hd : (0 : ℚ) < (D : ℚ) := by exact_mod_cast hD
    have hu : (0 : ℚ) < 1 / (D : ℚ) := one_div_pos.mpr hd
    have hp : (P : ℚ) = (D : ℚ) * ((P / D : Int) : ℚ) + ((P % D : Int) : ℚ) := by
      exact_mod_cast hsplit.symm
    have hmq1 : (1 : ℚ) ≤ ((P % D : Int) : ℚ) := by
      have : (1 : Int) ≤ P % D := by omega
      exact_mod_cast this
    have hmq2 : ((P % D : Int) : ℚ) ≤ (D : ℚ) - 1 := by
      have : P % D ≤ D - 1 := by omega
      exact_mod_cast this
    have hx : (P : ℚ) / D = ((P / D : Int) : ℚ) + ((P % D : Int) : ℚ) / D := by
      rw [hp]
      field_simp
      ring
    have hf1 : 1 / (D : ℚ) ≤ ((P % D : Int) : ℚ) / D :=
      div_le_div_of_nonneg_right hmq1 (le_of_lt hd)
    have hf2 : ((P % D : Int) : ℚ) / D ≤ 1 - 1 / (D : ℚ) := by
      have : ((P % D : Int) : ℚ) / D ≤ ((D : ℚ) - 1) / D :=
        div_le_div_of_nonneg_right hmq2 (le_of_lt hd)
      have he : ((D : ℚ) - 1) / D = 1 - 1 / (D : ℚ) := by field_simp
      linarith
    have hpq : (P : ℚ) < 9007199254740992 := by exact_mod_cast hP
    have heps : ((P : ℚ) / D) / 9007199254740992 < 1 / (D : ℚ) := by
      rw [div_div, mul_comm, ← div_div]
      apply div_lt_div_of_pos_right _ hd
      rw [div_lt_one (by norm_num)]
      exact hpq
    have habs := abs_le.mp (herr hdvd)
    have htq : (0 : ℚ) ≤ ((P / D : Int) : ℚ) := by exact_mod_cast ht0
    have hlo : ((P / D : Int) : ℚ) ≤ x := by linarith [habs.1]
    have hhi : x < ((P / D : Int) : ℚ) + 1 := by linarith [habs.2]
    have h1 : truncQ x = P / D := by
      rw [truncQ_of_nonneg (le_trans htq hlo), Int.floor_eq_iff]
      exact ⟨hlo, hhi⟩
    have h2 : truncQ ((P : ℚ) / D) = P / D := by
      rw [truncQ_of_nonneg (div_nonneg (by exact_mod_cast hP0) (le_of_lt hd)),
        Int.floor_eq_iff]
      constructor
      · linarith
      · linarith
    rw [h1, h2]

/-- The same for a product `P` of either sign, `|P| < 2^53`. -/
theorem truncQ_stable (P D : Int) (hP : |P| < 9007199254740992) (hD : 0 < D) (x : ℚ)
    (hdiv : D ∣ P → x = (P : ℚ) / D)
    (herr : ¬ D ∣ P → |x - (P : ℚ) / D| ≤ |(P : ℚ) / D| / 9007199254740992) :
    truncQ x = truncQ ((P : ℚ) / D) := by
  have hd : (0 : ℚ) < (D : ℚ) := by exact_mod_cast hD
  rcases le_total 0 P with hpos | hneg
  · have hq0 : (0 : ℚ) ≤ (P : ℚ) / D := div_nonneg (by exact_mod_cast hpos) (le_of_lt hd)
    refine truncQ_stable_nonneg P D hpos ?_ hD x hdiv ?_
    · rw [abs_of_nonneg hpos] at hP
      exact hP
    · intro h
      have := herr h
      rwa [abs_of_nonneg hq0] at this
  · have hq0 : (P : ℚ) / D ≤ 0 :=
      div_nonpos_of_nonpos_of_nonneg (by exact_mod_cast hneg) (le_of_lt hd)
    have hcast : ((-P : Int) : ℚ) / D = -((P : ℚ) / D) := by
      push_cast
      ring
    have h := truncQ_stable_nonneg (-P) D (by omega) (by
        rw [abs_of_nonpos hneg] at hP
        exact hP) hD (-x)
      (by
        intro hdv
        rw [hcast, hdiv ((Int.dvd_neg).mp hdv)])
      (by
        intro hdv
        have := herr (fun h2 => hdv ((Int.dvd_neg).mpr h2))
        rw [abs_of_nonpos hq0] at this
        rw [hcast]
        have he : -x - -((P : ℚ) / D) = -(x - (P : ℚ) / D) := by ring
        rw [he, abs_neg]
        exact this)
    rw [truncQ_neg, hcast, truncQ_neg] at h
    exact neg_injective h

/-! ## Reading the table -/

section
variable {X Y : Type}

theorem activeXs_getElem? (pointA : List (Point X Y)) (N k : Nat) (hk : k < N) :
    (activeXs pointA N)[k]? = (pointA[k]?).map Point.xVal := by
  simp [activeXs, List.getElem?_take_of_lt hk]

theorem pairwise_lookup {r : X → X → Prop} {pointA : List (Point X Y)} {N : Nat}
    (h : (activeXs pointA N).Pairwise r) {i j : Nat} {pi pj : Point X Y}
    (hij : i < j) (hj : j < N) (hi : pointA[i]? = some pi) (hpj : pointA[j]? = some pj) :
    r pi.xVal pj.xVal := by
  rw [List.pairwise_iff_getElem] at h
  have e1 : (activeXs pointA N)[i]? = some pi.xVal := by
    rw [activeXs_getElem? pointA N i (by omega), hi]; rfl
  have e2 : (activeXs pointA N)[j]? = some pj.xVal := by
    rw [activeXs_getElem? pointA N j hj, hpj]; rfl
  obtain ⟨h1, h1e⟩ := List.getElem?_eq_some_iff.mp e1
  obtain ⟨h2, h2e⟩ := List.getElem?_eq_some_iff.mp e2
  have := h i j h1 h2 hij
  rwa [h1e, h2e] at this

theorem take_agree {t1 t2 : List (Point X Y)} {N : Nat} (h : t1.take N = t2.take N) :
    ∀ k, k < N → t1[k]? = t2[k]? := by
  intro k hk
  rw [← List.getElem?_take_of_lt hk, h, List.getElem?_take_of_lt hk]

end

section
variable {X Y : Type} [LinearOrder X]

theorem StrictlyAscending.nonDecreasing {pointA : List (Point X Y)} {N : Nat}
    (h : StrictlyAscending pointA N) : NonDecreasing pointA N :=
  List.Pairwise.imp (fun hab => le_of_lt hab) h

theorem NonDecreasing.le {pointA : List (Point X Y)} {N : Nat}
    (h : NonDecreasing pointA N) {i j : Nat} {pi pj : Point X Y}
    (hij : i ≤ j) (hj : j < N) (hi : pointA[i]? = some pi) (hpj : pointA[j]? = some pj) :
    pi.xVal ≤ pj.xVal := by
  rcases Nat.lt_or_ge i j with hlt | hge
  · exact pairwise_lookup h hlt hj hi hpj
  · have : i = j := by omega
    subst this
    rw [hi] at hpj
    cases hpj
    exact le_refl _

theorem StrictlyAscending.lt {pointA : List (Point X Y)} {N : Nat}
    (h : StrictlyAscending pointA N) {i j : Nat} {pi pj : Point X Y}
    (hij : i < j) (hj : j < N) (hi : pointA[i]? = some pi) (hpj : pointA[j]? = some pj) :
    pi.xVal < pj.xVal :=
  pairwise_lookup h hij hj hi hpj

/-! ## The bracket scan -/

theorem whileLoop_found {pointA : List (Point X Y)} {N : Nat} {q : X} {i : Nat}
    {p : Point X Y} (fuel : Nat) (hp : pointA[i]? = some p) (hq : ¬ p.xVal < q) :
    whileLoop pointA N q (fuel + 1) i = LoopExit.found i := by
  simp [whileLoop, hp, hq]

theorem whileLoop_clamp {pointA : List (Point X Y)} {N : Nat} {q : X} {i : Nat}
    {p : Point X Y} (fuel : Nat) (hp : pointA[i]? = some p) (hq : p.xVal < q)
    (hi : i = (N + 4294967295) % 4294967296) :
    whileLoop pointA N q (fuel + 1) i = LoopExit.clamp i := by
  simp [whileLoop, hp, hq, ← hi]

theorem whileLoop_step {pointA : List (Point X Y)} {N : Nat} {q : X} {i : Nat}
    {p : Point X Y} (fuel : Nat) (hp : pointA[i]? = some p) (hq : p.xVal < q)
    (hi : i ≠ (N + 4294967295) % 4294967296) :
    whileLoop pointA N q (fuel + 1) i
      = whileLoop pointA N q fuel ((i + 1) % 4294967296) := by
  simp [whileLoop, hp, hq, hi]

theorem whileLoop_oob {pointA : List (Point X Y)} {N : Nat} {q : X} {i : Nat}
    (fuel : Nat) (hp : pointA[i]? = none) :
    whileLoop pointA N q (fuel + 1) i = LoopExit.outOfBounds := by
  simp [whileLoop, hp]

/-- The scan of a well-formed call (`2 ≤ numPoints ≤ capacity`), started at an index `i`
of the active window with enough fuel to reach its end: it either leaves the loop at
the first index `j ≥ i` whose x-value is not below the query, or it takes the guard
at index `numPoints - 1`, every x-value from `i` on being below the query. -/
theorem whileLoop_spec {pointA : List (Point X Y)} {N : Nat} {q : X}
    (hN : 2 ≤ N) (hcap : N ≤ pointA.length) (hM : N < 4294967296) :
    ∀ (fuel i : Nat), 1 ≤ i → i ≤ N - 1 → N - i ≤ fuel →
      (∃ j pj, i ≤ j ∧ j ≤ N - 1 ∧ whileLoop pointA N q fuel i = LoopExit.found j ∧
          pointA[j]? = some pj ∧ ¬ pj.xVal < q ∧
          ∀ k pk, i ≤ k → k < j → pointA[k]? = some pk → pk.xVal < q) ∨
      (whileLoop pointA N q fuel i = LoopExit.clamp (N - 1) ∧
          ∀ k pk, i ≤ k → k ≤ N - 1 → pointA[k]? = some pk → pk.xVal < q) := by
  intro fuel
  induction fuel with
  | zero => intro i h1 h2 h3; omega
  | succ fuel ih =>
    intro i h1 h2 h3
    have hlt : i < pointA.length := by omega
    obtain ⟨p, hp⟩ : ∃ p, pointA[i]? = some p := ⟨pointA[i], List.getElem?_eq_getElem hlt⟩
    have ht : (N + 4294967295) % 4294967296 = N - 1 := by omega
    by_cases hq : p.xVal < q
    · by_cases hi : i = N - 1
      · right
        refine ⟨?_, ?_⟩
        · rw [whileLoop_clamp fuel hp hq (by omega), hi]
        · intro k pk hk1 hk2 hk
          have : k = i := by omega
          subst this
          rw [hp] at hk
          cases hk
          exact hq
      · have hs : (i + 1) % 4294967296 = i + 1 := by omega
        rw [whileLoop_step fuel hp hq (by omega), hs]
        rcases ih (i + 1) (by omega) (by omega) (by omega) with
          ⟨j, pj, hj1, hj2, hres, hpj, hnq, hall⟩ | ⟨hres, hall⟩
        · left
          refine ⟨j, pj, by omega, hj2, hres, hpj, hnq, ?_⟩
          intro k pk hk1 hk2 hk
          rcases Nat.eq_or_lt_of_le hk1 with heq | hgt
          · subst heq
            rw [hp] at hk
            cases hk
            exact hq
          · exact hall k pk (by omega) hk2 hk
        · right
          refine ⟨hres, ?_⟩
          intro k pk hk1 hk2 hk
          rcases Nat.eq_or_lt_of_le hk1 with heq | hgt
          · subst heq
            rw [hp] at hk
            cases hk
            exact hq
          · exact hall k pk (by omega) hk2 hk
    · left
      refine ⟨i, p, le_refl _, h2, whileLoop_found fuel hp hq, hp, hq, ?_⟩
      intro k pk hk1 hk2
      omega

/-- Fuel beyond what the scan needs does not change its outcome. -/
theorem whileLoop_fuel_mono (pointA : List (Point X Y)) (N : Nat) (q : X) :
    ∀ (fuel i : Nat), whileLoop pointA N q fuel i ≠ LoopExit.outOfFuel →
      ∀ more, fuel ≤ more → whileLoop pointA N q more i = whileLoop pointA N q fuel i := by
  intro fuel
  induction fuel with
  | zero => intro i h; simp [whileLoop] at h
  | succ fuel ih =>
    intro i h more hle
    obtain ⟨m, rfl⟩ : ∃ m, more = m + 1 := ⟨more - 1, by omega⟩
    cases hp : pointA[i]? with
    | none => rw [whileLoop_oob m hp, whileLoop_oob fuel hp]
    | some p =>
      by_cases hq : p.xVal < q
      · by_cases hi : i = (N + 4294967295) % 4294967296
        · rw [whileLoop_clamp m hp hq hi, whileLoop_clamp fuel hp hq hi]
        · rw [whileLoop_step fuel hp hq hi] at h
          rw [whileLoop_step m hp hq hi, whileLoop_step fuel hp hq hi]
          exact ih _ h m (by omega)
      · rw [whileLoop_found m hp hq, whileLoop_found fuel hp hq]

/-- The fuel `2^32` is always enough: counted modulo `2^32`, the index is at most
`2^32 - 1` increments away from the guard index `numPoints - 1`, so the scan has met the
guard, left the loop or missed the table before the fuel is used up. -/
theorem whileLoop_ne_outOfFuel (pointA : List (Point X Y)) (N : Nat) (q : X) :
    ∀ (fuel i : Nat), i < 4294967296 →
      ((N + 4294967295) % 4294967296 + 4294967296 - i) % 4294967296 < fuel →
      whileLoop pointA N q fuel i ≠ LoopExit.outOfFuel := by
  intro fuel
  induction fuel with
  | zero => intro i _ h; omega
  | succ fuel ih =>
    intro i hi hd
    cases hp : pointA[i]? with
    | none => rw [whileLoop_oob fuel hp]; simp
    | some p =>
      by_cases hq : p.xVal < q
      · by_cases hg : i = (N + 4294967295) % 4294967296
        · rw [whileLoop_clamp fuel hp hq hg]; simp
        · rw [whileLoop_step fuel hp hq hg]
          exact ih _ (by omega) (by omega)
      · rw [whileLoop_found fuel hp hq]; simp

/-- Started inside the active window, the scan only ever reports an index of the window
at or after its starting point, whatever the capacity. -/
theorem whileLoop_index_bound {pointA : List (Point X Y)} {N : Nat} {q : X}
    (hN : 2 ≤ N) (hM : N < 4294967296) :
    ∀ (fuel i j : Nat), 1 ≤ i → i ≤ N - 1 →
      (whileLoop pointA N q fuel i = LoopExit.found j ∨
        whileLoop pointA N q fuel i = LoopExit.clamp j) → i ≤ j ∧ j ≤ N - 1 := by
  intro fuel
  induction fuel with
  | zero => intro i j _ _ h; simp [whileLoop] at h
  | succ fuel ih =>
    intro i j h1 h2 h
    cases hp : pointA[i]? with
    | none => rw [whileLoop_oob fuel hp] at h; simp at h
    | some p =>
      by_cases hq : p.xVal < q
      · by_cases hi : i = (N + 4294967295) % 4294967296
        · rw [whileLoop_clamp fuel hp hq hi] at h
          simp at h
          omega
        · have hs : (i + 1) % 4294967296 = i + 1 := by omega
          rw [whileLoop_step fuel hp hq hi, hs] at h
          have := ih (i + 1) j (by omega) (by omega) h
          omega
      · rw [whileLoop_found fuel hp hq] at h
        simp at h
        omega

/-- Two backing tables with the same entries at the indices below `numPoints` are
scanned alike. -/
theorem whileLoop_congr {t1 t2 : List (Point X Y)} {N : Nat} {q : X}
    (hN : 2 ≤ N) (hM : N < 4294967296) (hagree : ∀ k, k < N → t1[k]? = t2[k]?) :
    ∀ (fuel i : Nat), 1 ≤ i → i ≤ N - 1 →
      whileLoop t1 N q fuel i = whileLoop t2 N q fuel i := by
  intro fuel
  induction fuel with
  | zero => intro i _ _; rfl
  | succ fuel ih =>
    intro i h1 h2
    have ha := hagree i (by omega)
    cases hp : t1[i]? with
    | none => rw [whileLoop_oob fuel hp, whileLoop_oob fuel (ha ▸ hp)]
    | some p =>
      have hp2 : t2[i]? = some p := ha ▸ hp
      by_cases hq : p.xVal < q
      · by_cases hi : i = (N + 4294967295) % 4294967296
        · rw [whileLoop_clamp fuel hp hq hi, whileLoop_clamp fuel hp2 hq hi]
        · have hs : (i + 1) % 4294967296 = i + 1 := by omega
          rw [whileLoop_step fuel hp hq hi, whileLoop_step fuel hp2 hq hi, hs]
          exact ih (i + 1) (by omega) (by omega)
      · rw [whileLoop_found fuel hp hq, whileLoop_found fuel hp2 hq]

/-! ## The whole call -/

theorem Interp_low {xt : XType X} {yt : YType Y} {pointA : List (Point X Y)} {N : Nat}
    {q : X} {p0 : Point X Y} (h0 : pointA[0]? = some p0) (hq : q < p0.xVal) :
    Interp xt yt pointA N q
      = Except.ok ⟨status_t.X_VALUE_OUT_OF_RANGE, some p0.yVal, 0⟩ := by
  simp [Interp, h0, hq]

/-- No call ends for want of fuel, whatever the table, the active count and the query. -/
theorem Interp_ne_outOfFuel (xt : XType X) (yt : YType Y) (pointA : List (Point X Y))
    (N : Nat) (q : X) : Interp xt yt pointA N q ≠ Except.error Fault.outOfFuel := by
  have hw := whileLoop_ne_outOfFuel pointA N q 4294967296 1 (by omega) (by omega)
  cases h0 : pointA[0]? with
  | none => simp [Interp, h0]
  | some p0 =>
    by_cases hq : q < p0.xVal
    · simp [Interp, h0, hq]
    · cases hres : whileLoop pointA N q 4294967296 1 with
      | outOfBounds => simp [Interp, h0, hq, hres]
      | outOfFuel => exact absurd hres hw
      | clamp i => cases h1 : pointA[i]? <;> simp [Interp, h0, hq, hres, h1]
      | found i =>
        cases h1 : pointA[i]? <;> cases h2 : pointA[(i + 4294967295) % 4294967296]? <;>
          simp [Interp, h0, hq, hres, h1, h2]

/-- The outcome of a well-formed call (`2 ≤ numPoints ≤ capacity`) whose query is not
below the first x-value: either the blend over the first bracket `j` whose right end is
not below the query, or the clamp to the last active point. -/
theorem Interp_spec (xt : XType X) (yt : YType Y) {pointA : List (Point X Y)} {N : Nat}
    {q : X} {p0 : Point X Y} (hN : 2 ≤ N) (hcap : N ≤ pointA.length)
    (hM : N < 4294967296) (h0 : pointA[0]? = some p0) (hq : ¬ q < p0.xVal) :
    (∃ j pj pPrev, 1 ≤ j ∧ j ≤ N - 1 ∧ pointA[j]? = some pj ∧ pointA[j - 1]? = some pPrev ∧
        ¬ pj.xVal < q ∧
        (∀ k pk, 1 ≤ k → k < j → pointA[k]? = some pk → pk.xVal < q) ∧
        Interp xt yt pointA N q
          = Except.ok ⟨status_t.OK, blend xt yt pPrev pj q, j⟩) ∨
    (∃ pl, pointA[N - 1]? = some pl ∧
        (∀ k pk, 1 ≤ k → k ≤ N - 1 → pointA[k]? = some pk → pk.xVal < q) ∧
        Interp xt yt pointA N q
          = Except.ok ⟨status_t.X_VALUE_OUT_OF_RANGE, some pl.yVal, N⟩) := by
  rcases whileLoop_spec (q := q) hN hcap hM 4294967296 1 (le_refl _) (by omega) (by omega) with
    ⟨j, pj, hj1, hj2, hres, hpj, hnq, hall⟩ | ⟨hres, hall⟩
  · left
    have hlt : j - 1 < pointA.length := by omega
    have hpp : pointA[j - 1]? = some (pointA[j - 1]) := List.getElem?_eq_getElem hlt
    have hidx : (j + 4294967295) % 4294967296 = j - 1 := by omega
    refine ⟨j, pj, pointA[j - 1], hj1, hj2, hpj, hpp, hnq, hall, ?_⟩
    simp [Interp, h0, hq, hres, hpj, hidx, hpp]
  · right
    have hlt : N - 1 < pointA.length := by omega
    have hpl : pointA[N - 1]? = some (pointA[N - 1]) := List.getElem?_eq_getElem hlt
    have hidx : (N - 1 + 1) % 4294967296 = N := by omega
    refine ⟨pointA[N - 1], hpl, hall, ?_⟩
    simp [Interp, h0, hq, hres, hpl, hidx]

theorem Interp_high (xt : XType X) (yt : YType Y) {pointA : List (Point X Y)} {N : Nat}
    {q : X} {pl : Point X Y} (hN : 2 ≤ N) (hcap : N ≤ pointA.length)
    (hM : N < 4294967296) (hasc : NonDecreasing pointA N)
    (hl : pointA[N - 1]? = some pl) (hq : pl.xVal < q) :
    Interp xt yt pointA N q
      = Except.ok ⟨status_t.X_VALUE_OUT_OF_RANGE, some pl.yVal, N⟩ := by
  have hlt : 0 < pointA.length := by omega
  have h0 : pointA[0]? = some (pointA[0]) := List.getElem?_eq_getElem hlt
  have hle0 : (pointA[0]).xVal ≤ pl.xVal := hasc.le (Nat.zero_le _) (by omega) h0 hl
  have hnq : ¬ q < (pointA[0]).xVal := not_lt.mpr (le_of_lt (lt_of_le_of_lt hle0 hq))
  rcases Interp_spec xt yt hN hcap hM h0 hnq with
    ⟨j, pj, pPrev, hj1, hj2, hpj, _, hnlt, _, _⟩ | ⟨pl2, hpl2, _, hres⟩
  · exact absurd (lt_of_le_of_lt (hasc.le hj2 (by omega) hpj hl) hq) hnlt
  · rw [hl] at hpl2
    cases hpl2
    exact hres

/-- The bracket `k` of a non-decreasing table is selected by every query that is not
below the first x-value, is above the left end of the bracket (or `k = 1`) and is not
above its right end. -/
theorem Interp_bracket (xt : XType X) (yt : YType Y) {pointA : List (Point X Y)} {N : Nat}
    {q : X} {k : Nat} {p0 pa pb : Point X Y} (hN : 2 ≤ N) (hcap : N ≤ pointA.length)
    (hM : N < 4294967296) (hasc : NonDecreasing pointA N)
    (h0 : pointA[0]? = some p0) (hq0 : p0.xVal ≤ q)
    (hk1 : 1 ≤ k) (hk2 : k ≤ N - 1)
    (ha : pointA[k - 1]? = some pa) (hb : pointA[k]? = some pb)
    (hleft : k = 1 ∨ pa.xVal < q) (hright : q ≤ pb.xVal) :
    Interp xt yt pointA N q = Except.ok ⟨status_t.OK, blend xt yt pa pb q, k⟩ := by
  rcases Interp_spec xt yt hN hcap hM h0 (not_lt.mpr hq0) with
    ⟨j, pj, pPrev, hj1, hj2, hpj, hpp, hnlt, hall, hres⟩ | ⟨pl, _, hall, _⟩
  · have hjk : j = k := by
      rcases Nat.lt_trichotomy j k with hlt | heq | hgt
      · exfalso
        have hpa : pa.xVal < q := by
          rcases hleft with h1 | h
          · omega
          · exact h
        exact hnlt (lt_of_le_of_lt (hasc.le (by omega) (by omega) hpj ha) hpa)
      · exact heq
      · exact absurd (hall k pb hk1 hgt hb) (not_lt.mpr hright)
    subst hjk
    rw [hb] at hpj
    rw [ha] at hpp
    cases hpj
    cases hpp
    exact hres
  · exact absurd (hall k pb hk1 hk2 hb) (not_lt.mpr hright)

/-- The result depends on the backing table only through its entries below
`numPoints`. -/
theorem Interp_congr (xt : XType X) (yt : YType Y) {t1 t2 : List (Point X Y)} {N : Nat}
    (q : X) (hN : 2 ≤ N) (hM : N < 4294967296)
    (hagree : ∀ k, k < N → t1[k]? = t2[k]?) :
    Interp xt yt t1 N q = Interp xt yt t2 N q := by
  have hw := whileLoop_congr (q := q) hN hM hagree 4294967296 1 (le_refl _) (by omega)
  unfold Interp
  rw [← hagree 0 (by omega), ← hw]
  cases h0 : t1[0]? with
  | none => rfl
  | some p0 =>
    by_cases hq : q < p0.xVal
    · simp [hq]
    · simp only [hq, if_false]
      cases hres : whileLoop t1 N q 4294967296 1 with
      | outOfBounds => rfl
      | outOfFuel => rfl
      | clamp i =>
        have hb := whileLoop_index_bound hN hM _ _ _ (le_refl 1) (by omega) (Or.inr hres)
        simp only [hagree i (by omega)]
      | found i =>
        have hb := whileLoop_index_bound hN hM _ _ _ (le_refl 1) (by omega) (Or.inl hres)
        have hidx : (i + 4294967295) % 4294967296 = i - 1 := by omega
        simp only [hidx, hagree i (by omega), hagree (i - 1) (by omega)]

/-- With one active point the guard index is 0, which the scan, started at 1, does not
meet before the end of a backing table of fewer than `2^32` entries: when every entry
from index 1 on is below the query, the scan reads past the capacity. -/
theorem whileLoop_runs_off {pointA : List (Point X Y)} {q : X}
    (hlen : pointA.length < 4294967296)
    (hall : ∀ k pk, 1 ≤ k → pointA[k]? = some pk → pk.xVal < q) :
    ∀ (fuel i : Nat), 1 ≤ i → i ≤ pointA.length → pointA.length - i < fuel →
      whileLoop pointA 1 q fuel i = LoopExit.outOfBounds := by
  intro fuel
  induction fuel with
  | zero => intro i _ _ h; omega
  | succ fuel ih =>
    intro i h1 h2 h3
    cases hp : pointA[i]? with
    | none => exact whileLoop_oob fuel hp
    | some p =>
      have hlt : i < pointA.length := (List.getElem?_eq_some_iff.mp hp).1
      have hs : (i + 1) % 4294967296 = i + 1 := by omega
      rw [whileLoop_step fuel hp (hall i p h1 hp) (by omega), hs]
      exact ih (i + 1) (by omega) (by omega) (by omega)

end

/-! ## The divisor `xDiff` -/

theorem truncQ_intCast (n : Int) : truncQ (n : ℚ) = n := by
  simp [truncQ]

/-- For integer-valued `double` x-values of the `int32_t` range, `xDiff` is the
difference of the two x-values reduced to `int32_t`. -/
theorem xDiff_doubleX_intCast (a b : Int) (c d : ℚ)
    (ha1 : -2147483648 ≤ a) (ha2 : a < 2147483648)
    (hb1 : -2147483648 ≤ b) (hb2 : b < 2147483648) :
    xDiff doubleX (⟨(a : ℚ), c⟩ : Point ℚ ℚ) ⟨(b : ℚ), d⟩ = wrapInt32 (b - a) := by
  simp only [xDiff, doubleX, truncQ_intCast]
  rw [wrapInt32_of_fits a ha1 ha2, wrapInt32_of_fits b hb1 hb2]

/-- For integer-valued `double` x-values of the `int32_t` range, `xDiff` is the exact
difference as long as the difference itself fits `int32_t`. -/
theorem xDiff_doubleX_exact (a b : Int) (c d : ℚ)
    (ha1 : -2147483648 ≤ a) (ha2 : a < 2147483648)
    (hb1 : -2147483648 ≤ b) (hb2 : b < 2147483648)
    (hd1 : -2147483648 ≤ b - a) (hd2 : b - a < 2147483648) :
    xDiff doubleX (⟨(a : ℚ), c⟩ : Point ℚ ℚ) ⟨(b : ℚ), d⟩ = b - a := by
  rw [xDiff_doubleX_intCast a b c d ha1 ha2 hb1 hb2, wrapInt32_of_fits _ hd1 hd2]

/-- For integer-valued `double` x-values of the `int32_t` range, `xDiff` is zero exactly
when the two x-values are equal, and for `a ≤ b` it is negative exactly when the right
x-value is at least `2^31` larger than the left one. -/
theorem xDiff_doubleX_sign (a b : Int) (c d : ℚ)
    (ha1 : -2147483648 ≤ a) (ha2 : a < 2147483648)
    (hb1 : -2147483648 ≤ b) (hb2 : b < 2147483648) :
    (xDiff doubleX (⟨(a : ℚ), c⟩ : Point ℚ ℚ) ⟨(b : ℚ), d⟩ = 0 ↔ a = b) ∧
    (a ≤ b → (xDiff doubleX (⟨(a : ℚ), c⟩ : Point ℚ ℚ) ⟨(b : ℚ), d⟩ < 0 ↔
      2147483648 ≤ b - a)) := by
  rw [xDiff_doubleX_intCast a b c d ha1 ha2 hb1 hb2]
  unfold wrapInt32
  refine ⟨?_, ?_⟩
  · omega
  · intro hab
    omega

/-- For `uint32_t` x-values `a ≤ b`, `xDiff` is the exact difference as long as the
difference is below `2^31`. -/
theorem xDiff_uint32X_exact {Y : Type} (a b : Int) (c d : Y)
    (hab : a ≤ b) (hd : b - a < 2147483648) :
    xDiff uint32X (⟨a, c⟩ : Point Int Y) ⟨b, d⟩ = b - a := by
  simp only [xDiff, uint32X]
  unfold wrapInt32
  omega

/-- The blend of `LinInterp<double, double>` when the divisor is the exact, non-zero
x-difference: the linear interpolant through the two points. -/
theorem blend_double_exact (a b : Int) (c d q : ℚ)
    (ha1 : -2147483648 ≤ a) (ha2 : a < 2147483648)
    (hb1 : -2147483648 ≤ b) (hb2 : b < 2147483648)
    (hab : a < b) (hd2 : b - a < 2147483648) :
    blend doubleX doubleY (⟨(a : ℚ), c⟩ : Point ℚ ℚ) ⟨(b : ℚ), d⟩ q
      = some (c + (q - a) * (d - c) / ((b : ℚ) - a)) := by
  have hx := xDiff_doubleX_exact a b c d ha1 ha2 hb1 hb2 (by omega) hd2
  have hne : b - a ≠ 0 := by omega
  simp only [blend, hx, hne, if_false]
  simp only [doubleX, doubleY]
  push_cast
  rw [add_comm]

/-! ## The blend of `LinInterp<int32_t, int32_t>` -/

/-- The real-valued quotient of the blend,
`(q - a) * (d - c) / (b - a)`, lies between 0 and the y-difference `d - c` when the query
`q` lies between the x-values `a < b`. -/
theorem quotient_bounds (a b c d q : Int) (hab : a < b) (haq : a ≤ q) (hqb : q ≤ b) :
    (0 ≤ d - c → 0 ≤ ((q - a : Int) : ℚ) * ((d - c : Int) : ℚ) / ((b - a : Int) : ℚ) ∧
        ((q - a : Int) : ℚ) * ((d - c : Int) : ℚ) / ((b - a : Int) : ℚ) ≤ ((d - c : Int) : ℚ)) ∧
    (d - c ≤ 0 → ((q - a : Int) : ℚ) * ((d - c : Int) : ℚ) / ((b - a : Int) : ℚ) ≤ 0 ∧
        ((d - c : Int) : ℚ) ≤ ((q - a : Int) : ℚ) * ((d - c : Int) : ℚ) / ((b - a : Int) : ℚ)) := by
  have hpos : (0 : ℚ) < ((b - a : Int) : ℚ) := by
    have : (0 : Int) < b - a := by omega
    exact_mod_cast this
  have hn0 : (0 : ℚ) ≤ ((q - a : Int) : ℚ) := by
    have : (0 : Int) ≤ q - a := by omega
    exact_mod_cast this
  have hn1 : ((q - a : Int) : ℚ) ≤ ((b - a : Int) : ℚ) := by
    have : q - a ≤ b - a := by omega
    exact_mod_cast this
  constructor
  · intro hy
    have hy0 : (0 : ℚ) ≤ ((d - c : Int) : ℚ) := by exact_mod_cast hy
    refine ⟨div_nonneg (mul_nonneg hn0 hy0) (le_of_lt hpos), ?_⟩
    rw [div_le_iff₀ hpos]
    nlinarith
  · intro hy
    have hy0 : ((d - c : Int) : ℚ) ≤ 0 := by exact_mod_cast hy
    refine ⟨div_nonpos_of_nonpos_of_nonneg (mul_nonpos_of_nonneg_of_nonpos hn0 hy0)
      (le_of_lt hpos), ?_⟩
    rw [le_div_iff₀ hpos]
    nlinarith

/-- The blend of the `int32_t` instantiation between two points whose coordinates lie in
`[-2^30, 2^30)`: no 32-bit operation overflows, the quotient is truncated toward zero and
the left y-value is added to the truncated quotient. -/
theorem blend_int32 (a b c d q : Int) (ha : Fits30 a) (hb : Fits30 b) (hc : Fits30 c)
    (hd : Fits30 d) (hab : a < b) (haq : a ≤ q) (hqb : q ≤ b) :
    blend int32X int32Y (⟨a, c⟩ : Point Int Int) ⟨b, d⟩ q
      = some (truncQ (((q - a : Int) : ℚ) * ((d - c : Int) : ℚ) / ((b - a : Int) : ℚ)) + c) := by
  obtain ⟨ha1, ha2⟩ := ha
  obtain ⟨hb1, hb2⟩ := hb
  obtain ⟨hc1, hc2⟩ := hc
  obtain ⟨hd1, hd2⟩ := hd
  have hx : xDiff int32X (⟨a, c⟩ : Point Int Int) ⟨b, d⟩ = b - a := by
    simp only [xDiff, int32X]
    rw [wrapInt32_of_fits a (by omega) (by omega), wrapInt32_of_fits b (by omega) (by omega),
      wrapInt32_of_fits (b - a) (by omega) (by omega)]
  have hne : b - a ≠ 0 := by omega
  have hy : wrapInt32 (d - c) = d - c := wrapInt32_of_fits _ (by omega) (by omega)
  have hn : wrapInt32 (q - a) = q - a := wrapInt32_of_fits _ (by omega) (by omega)
  have hq := quotient_bounds a b c d q hab haq hqb
  have ht : -2147483648 ≤ truncQ (((q - a : Int) : ℚ) * ((d - c : Int) : ℚ) / ((b - a : Int) : ℚ))
        + c ∧
      truncQ (((q - a : Int) : ℚ) * ((d - c : Int) : ℚ) / ((b - a : Int) : ℚ)) + c < 2147483648 ∧
      -2147483648 ≤ truncQ (((q - a : Int) : ℚ) * ((d - c : Int) : ℚ) / ((b - a : Int) : ℚ)) ∧
      truncQ (((q - a : Int) : ℚ) * ((d - c : Int) : ℚ) / ((b - a : Int) : ℚ)) < 2147483648 := by
    rcases le_total 0 (d - c) with hpos | hneg
    · have := truncQ_bounds_nonneg (hq.1 hpos).1 (hq.1 hpos).2
      omega
    · have := truncQ_bounds_nonpos (hq.2 hneg).1 (hq.2 hneg).2
      omega
  simp only [blend, hx, hne, if_false]
  simp only [int32X, int32Y, hy, hn]
  rw [wrapInt32_of_fits _ ht.2.2.1 ht.2.2.2, wrapInt32_of_fits _ ht.1 ht.2.1]

/-- The blend of the `int32_t` instantiation gives the same value when its product and
its quotient are rounded to `double`, as long as the product of the x-width and the
y-height of the bracket is below `2^53`. -/
theorem blend_int32_rounded (a b c d q : Int) (ha : Fits30 a) (hb : Fits30 b)
    (hc : Fits30 c) (hd : Fits30 d) (hab : a < b) (haq : a ≤ q) (hqb : q ≤ b)
    (hprod : |b - a| * |d - c| < 9007199254740992) (fl : ℚ → ℚ) (hfl : IsRounding fl) :
    blendInt32Rounded fl (⟨a, c⟩ : Point Int Int) ⟨b, d⟩ q
      = some (truncQ (((q - a : Int) : ℚ) * ((d - c : Int) : ℚ) / ((b - a : Int) : ℚ)) + c) := by
  have hexact := blend_int32 a b c d q ha hb hc hd hab haq hqb
  obtain ⟨ha1, ha2⟩ := ha
  obtain ⟨hb1, hb2⟩ := hb
  obtain ⟨hc1, hc2⟩ := hc
  obtain ⟨hd1, hd2⟩ := hd
  have hx : xDiff int32X (⟨a, c⟩ : Point Int Int) ⟨b, d⟩ = b - a := by
    simp only [xDiff, int32X]
    rw [wrapInt32_of_fits a (by omega) (by omega), wrapInt32_of_fits b (by omega) (by omega),
      wrapInt32_of_fits (b - a) (by omega) (by omega)]
  have hne : b - a ≠ 0 := by omega
  have hy : wrapInt32 (d - c) = d - c := wrapInt32_of_fits _ (by omega) (by omega)
  have hn : wrapInt32 (q - a) = q - a := wrapInt32_of_fits _ (by omega) (by omega)
  have hD : 0 < b - a := by omega
  have hP : |(q - a) * (d - c)| < 9007199254740992 := by
    rw [abs_mul]
    have h1 : |q - a| ≤ |b - a| := by
      rw [abs_of_nonneg (by omega), abs_of_nonneg (by omega)]
      omega
    exact lt_of_le_of_lt (mul_le_mul_of_nonneg_right h1 (abs_nonneg _)) hprod
  have hcast : ((q - a : Int) : ℚ) * ((d - c : Int) : ℚ) = (((q - a) * (d - c) : Int) : ℚ) := by
    push_cast
    ring
  have hinner : fl (((q - a : Int) : ℚ) * ((d - c : Int) : ℚ))
      = ((q - a : Int) : ℚ) * ((d - c : Int) : ℚ) := by
    rw [hcast]
    exact hfl.1 _ (le_of_lt hP)
  have hdq : (0 : ℚ) < ((b - a : Int) : ℚ) := by exact_mod_cast hD
  have houter : truncQ (fl (((q - a : Int) : ℚ) * ((d - c : Int) : ℚ) / ((b - a : Int) : ℚ)))
      = truncQ (((q - a : Int) : ℚ) * ((d - c : Int) : ℚ) / ((b - a : Int) : ℚ)) := by
    rw [hcast]
    apply truncQ_stable ((q - a) * (d - c)) (b - a) hP hD
    · rintro ⟨n, hn2⟩
      have hq : ((((q - a) * (d - c) : Int) : ℚ)) / ((b - a : Int) : ℚ) = (n : ℚ) := by
        rw [hn2, Int.cast_mul, mul_div_assoc, mul_comm, div_mul_cancel₀ _ (ne_of_gt hdq)]
      have hnb : |n| ≤ 9007199254740992 := by
        have h1 : |n| ≤ |b - a| * |n| := by
          have : 1 ≤ |b - a| := by
            rw [abs_of_pos hD]
            omega
          nlinarith [abs_nonneg n]
        rw [hn2, abs_mul] at hP
        omega
      rw [hq]
      exact hfl.1 n hnb
    · intro hndvd
      have hP0 : (q - a) * (d - c) ≠ 0 := by
        intro h0
        exact hndvd (h0 ▸ dvd_zero _)
      have hP1 : (1 : ℚ) ≤ |(((q - a) * (d - c) : Int) : ℚ)| := by
        have : (1 : Int) ≤ |(q - a) * (d - c)| := Int.one_le_abs hP0
        exact_mod_cast this
      have hPq : |(((q - a) * (d - c) : Int) : ℚ)| < 9007199254740992 := by
        exact_mod_cast hP
      have hDq : ((b - a : Int) : ℚ) < 2147483648 := by
        have : b - a < 2147483648 := by omega
        exact_mod_cast this
      have hD1 : (1 : ℚ) ≤ ((b - a : Int) : ℚ) := by
        have : (1 : Int) ≤ b - a := by omega
        exact_mod_cast this
      have habs : |(((q - a) * (d - c) : Int) : ℚ) / ((b - a : Int) : ℚ)|
          = |(((q - a) * (d - c) : Int) : ℚ)| / ((b - a : Int) : ℚ) := by
        rw [abs_div, abs_of_pos hdq]
      apply hfl.2
      · rw [habs, le_div_iff₀ hdq]
        have h1 : (1 : ℚ) / 2 ^ 1022 * ((b - a : Int) : ℚ) ≤ 1 := by
          have h2 : (1 : ℚ) / 2 ^ 1022 * ((b - a : Int) : ℚ)
              ≤ 1 / 2 ^ 1022 * 2147483648 :=
            mul_le_mul_of_nonneg_left (le_of_lt hDq) (by positivity)
          have h3 : (1 : ℚ) / 2 ^ 1022 * 2147483648 ≤ 1 := by norm_num
          linarith
        linarith
      · rw [habs, div_le_iff₀ hdq]
        have h1 : (2 : ℚ) ^ 1023 * 1 ≤ 2 ^ 1023 * ((b - a : Int) : ℚ) :=
          mul_le_mul_of_nonneg_left hD1 (by positivity)
        have h2 : (9007199254740992 : ℚ) ≤ 2 ^ 1023 := by norm_num
        linarith
  simp only [blend, hx, hne, if_false] at hexact
  simp only [int32X, int32Y, hy, hn] at hexact
  simp only [blendInt32Rounded, hx, hne, if_false]
  simp only [int32X, int32Y, hy, hn]
  rw [hinner, houter]
  exact hexact

/-- An in-range query of a strictly ascending `int32_t` table with coordinates in
`[-2^30, 2^30)` and products below `2^53` is blended over its bracket without overflow,
and the rounding of the product and of the quotient to `double` does not change the
value. -/
theorem Interp_int32 {pointA : List (Point Int Int)} {N : Nat} {q : Int}
    {p0 pl : Point Int Int} (hN : 2 ≤ N) (hcap : N ≤ pointA.length) (hM : N < 4294967296)
    (hasc : StrictlyAscending pointA N)
    (hfit : ∀ p ∈ pointA.take N, Fits30 p.xVal ∧ Fits30 p.yVal)
    (hprod : SmallProducts pointA N)
    (h0 : pointA[0]? = some p0) (hl : pointA[N - 1]? = some pl)
    (hq0 : p0.xVal ≤ q) (hql : q ≤ pl.xVal) :
    ∃ j pPrev pI, 1 ≤ j ∧ j ≤ N - 1 ∧ pointA[j - 1]? = some pPrev ∧ pointA[j]? = some pI ∧
      pPrev.xVal ≤ q ∧ q ≤ pI.xVal ∧ pPrev.xVal < pI.xVal ∧
      Interp int32X int32Y pointA N q = Except.ok ⟨status_t.OK,
        some (truncQ (((q - pPrev.xVal : Int) : ℚ) * ((pI.yVal - pPrev.yVal : Int) : ℚ)
          / ((pI.xVal - pPrev.xVal : Int) : ℚ)) + pPrev.yVal), j⟩ ∧
      ∀ fl, IsRounding fl → blendInt32Rounded fl pPrev pI q
        = some (truncQ (((q - pPrev.xVal : Int) : ℚ) * ((pI.yVal - pPrev.yVal : Int) : ℚ)
          / ((pI.xVal - pPrev.xVal : Int) : ℚ)) + pPrev.yVal) := by
  have hin : ∀ k p, k < N → pointA[k]? = some p → p ∈ pointA.take N := by
    intro k p hk hp
    have : (pointA.take N)[k]? = some p := by rw [List.getElem?_take_of_lt hk, hp]
    exact List.getElem?_mem this
  rcases Interp_spec int32X int32Y hN hcap hM h0 (not_lt.mpr hq0) with
    ⟨j, pj, pPrev, hj1, hj2, hpj, hpp, hnq, hall, hres⟩ | ⟨pl2, hpl2, hall, _⟩
  · have hle : pPrev.xVal ≤ q := by
      rcases Nat.eq_or_lt_of_le hj1 with h1 | h1
      · subst h1
        rw [h0] at hpp
        cases hpp
        exact hq0
      · exact le_of_lt (hall (j - 1) pPrev (by omega) (by omega) hpp)
    have hlt : pPrev.xVal < pj.xVal := hasc.lt (by omega) (by omega) hpp hpj
    have hm1 := hin (j - 1) pPrev (by omega) hpp
    have hm2 := hin j pj (by omega) hpj
    have hf1 := hfit pPrev hm1
    have hf2 := hfit pj hm2
    refine ⟨j, pPrev, pj, hj1, hj2, hpp, hpj, hle, not_lt.mp hnq, hlt, ?_, ?_⟩
    · rw [hres, ← blend_int32 pPrev.xVal pj.xVal pPrev.yVal pj.yVal q hf1.1 hf2.1 hf1.2
        hf2.2 hlt hle (not_lt.mp hnq)]
    · intro fl hfl
      exact blend_int32_rounded pPrev.xVal pj.xVal pPrev.yVal pj.yVal q hf1.1 hf2.1 hf1.2
        hf2.2 hlt hle (not_lt.mp hnq) (hprod pPrev hm1 pj hm2) fl hfl
  · exact absurd (hall (N - 1) pl (by omega) (le_refl _) hl) (not_lt.mpr hql)

/-! ## Integer-valued tables of `LinInterp<double, double>` -/

theorem IntegerXs.lookup {pointA : List (Point ℚ ℚ)} {N k : Nat} {p : Point ℚ ℚ}
    (h : IntegerXs pointA N) (hk : k < N) (hp : pointA[k]? = some p) :
    ∃ n : Int, p.xVal = n ∧ -2147483648 ≤ n ∧ n < 2147483648 := by
  have hmem : p ∈ pointA.take N := by
    have : (pointA.take N)[k]? = some p := by rw [List.getElem?_take_of_lt hk, hp]
    exact List.getElem?_mem this
  obtain ⟨hden, h1, h2⟩ := h p hmem
  exact ⟨p.xVal.num, (Rat.coe_int_num_of_den_eq_one hden).symm, h1, h2⟩

/-- An in-range query of a strictly ascending, integer-valued `double` table whose
x-values span less than `2^31` gets the exact linear interpolant over its bracket. -/
theorem Interp_double_exact {pointA : List (Point ℚ ℚ)} {N : Nat} {q : ℚ}
    {p0 pl : Point ℚ ℚ} (hN : 2 ≤ N) (hcap : N ≤ pointA.length) (hM : N < 4294967296)
    (hasc : StrictlyAscending pointA N) (hint : IntegerXs pointA N)
    (h0 : pointA[0]? = some p0) (hl : pointA[N - 1]? = some pl)
    (hspan : pl.xVal - p0.xVal < 2147483648)
    (hq0 : p0.xVal ≤ q) (hql : q ≤ pl.xVal) :
    ∃ j pPrev pI, 1 ≤ j ∧ j ≤ N - 1 ∧ pointA[j - 1]? = some pPrev ∧ pointA[j]? = some pI ∧
      pPrev.xVal ≤ q ∧ q ≤ pI.xVal ∧ (2 ≤ j → pPrev.xVal < q) ∧ pPrev.xVal < pI.xVal ∧
      Interp doubleX doubleY pointA N q = Except.ok ⟨status_t.OK,
        some (pPrev.yVal + (q - pPrev.xVal) * (pI.yVal - pPrev.yVal)
          / (pI.xVal - pPrev.xVal)), j⟩ := by
  rcases Interp_spec doubleX doubleY hN hcap hM h0 (not_lt.mpr hq0) with
    ⟨j, pj, pPrev, hj1, hj2, hpj, hpp, hnq, hall, hres⟩ | ⟨pl2, hpl2, hall, _⟩
  · have hle : pPrev.xVal ≤ q := by
      rcases Nat.eq_or_lt_of_le hj1 with h1 | h1
      · subst h1
        rw [h0] at hpp
        cases hpp
        exact hq0
      · exact le_of_lt (hall (j - 1) pPrev (by omega) (by omega) hpp)
    have hstrict : 2 ≤ j → pPrev.xVal < q := by
      intro h2
      exact hall (j - 1) pPrev (by omega) (by omega) hpp
    have hlt : pPrev.xVal < pj.xVal := hasc.lt (by omega) (by omega) hpp hpj
    have hlo : p0.xVal ≤ pPrev.xVal :=
      hasc.nonDecreasing.le (Nat.zero_le _) (by omega) h0 hpp
    have hhi : pj.xVal ≤ pl.xVal := hasc.nonDecreasing.le hj2 (by omega) hpj hl
    obtain ⟨a, hax, ha1, ha2⟩ := hint.lookup (show j - 1 < N by omega) hpp
    obtain ⟨b, hbx, hb1, hb2⟩ := hint.lookup (show j < N by omega) hpj
    refine ⟨j, pPrev, pj, hj1, hj2, hpp, hpj, hle, not_lt.mp hnq, hstrict, hlt, ?_⟩
    have hab : a < b := by
      have : (a : ℚ) < (b : ℚ) := by rw [← hax, ← hbx]; exact hlt
      exact_mod_cast this
    have hd : b - a < 2147483648 := by
      have : ((b - a : Int) : ℚ) < 2147483648 := by
        push_cast
        rw [← hax, ← hbx]
        linarith
      exact_mod_cast this
    have hb := blend_double_exact a b pPrev.yVal pj.yVal q ha1 ha2 hb1 hb2 hab hd
    rw [← hax, ← hbx] at hb
    rw [hres, hb]
  · exact absurd (hall (N - 1) pl (by omega) (le_refl _) hl) (not_lt.mpr hql)

/-- On an integer-valued `double` table (x-values in any order) the divisor of a call
that reaches the interpolation branch is zero exactly when the section is 1 and the
first two x-values both equal the query; it is negative exactly when the x-values of
the bracket are `2^31` or more apart. -/
theorem Interp_double_divisor {pointA : List (Point ℚ ℚ)} {N : Nat} {q : ℚ}
    {r : InterpResult ℚ} (hN : 2 ≤ N) (hcap : N ≤ pointA.length) (hM : N < 4294967296)
    (hint : IntegerXs pointA N)
    (hres : Interp doubleX doubleY pointA N q = Except.ok r) (hok : r.status = status_t.OK) :
    ∃ pPrev pI, pointA[r.sectionNum - 1]? = some pPrev ∧ pointA[r.sectionNum]? = some pI ∧
      (xDiff doubleX pPrev pI = 0 ↔
        (r.sectionNum = 1 ∧ pPrev.xVal = q ∧ pI.xVal = q)) ∧
      (xDiff doubleX pPrev pI < 0 ↔ 2147483648 ≤ pI.xVal - pPrev.xVal) := by
  have hlt : 0 < pointA.length := by omega
  have h0 : pointA[0]? = some (pointA[0]) := List.getElem?_eq_getElem hlt
  by_cases hlow : q < (pointA[0]).xVal
  · rw [Interp_low h0 hlow] at hres
    cases hres
    cases hok
  · rcases Interp_spec doubleX doubleY hN hcap hM h0 hlow with
      ⟨j, pj, pPrev, hj1, hj2, hpj, hpp, hnq, hall, hres2⟩ | ⟨_, _, _, hres2⟩
    · rw [hres2] at hres
      cases hres
      have hle : pPrev.xVal ≤ q := by
        rcases Nat.eq_or_lt_of_le hj1 with h1 | h1
        · subst h1
          rw [h0] at hpp
          cases hpp
          exact not_lt.mp hlow
        · exact le_of_lt (hall (j - 1) pPrev (by omega) (by omega) hpp)
      have hge : q ≤ pj.xVal := not_lt.mp hnq
      obtain ⟨a, hax, ha1, ha2⟩ := hint.lookup (show j - 1 < N by omega) hpp
      obtain ⟨b, hbx, hb1, hb2⟩ := hint.lookup (show j < N by omega) hpj
      have hsign := xDiff_doubleX_sign a b pPrev.yVal pj.yVal ha1 ha2 hb1 hb2
      rw [← hax, ← hbx] at hsign
      have hab : a ≤ b := by
        have : (a : ℚ) ≤ (b : ℚ) := by rw [← hax, ← hbx]; exact le_trans hle hge
        exact_mod_cast this
      refine ⟨pPrev, pj, hpp, hpj, ?_, ?_⟩
      · rw [hsign.1]
        constructor
        · intro heq
          have hxx : pPrev.xVal = pj.xVal := by rw [hax, hbx, heq]
          have hq1 : pPrev.xVal = q := le_antisymm hle (hxx ▸ hge)
          refine ⟨?_, hq1, hxx ▸ hq1⟩
          show j = 1
          by_contra hne
          have h2 : pPrev.xVal < q := hall (j - 1) pPrev (by omega) (by omega) hpp
          exact absurd hq1 (ne_of_lt h2)
        · rintro ⟨_, h1, h2⟩
          have : (a : ℚ) = (b : ℚ) := by rw [← hax, ← hbx, h1, h2]
          exact_mod_cast this
      · rw [hsign.2 hab, hax, hbx]
        constructor
        · intro h
          exact_mod_cast h
        · intro h
          exact_mod_cast h
    · rw [hres2] at hres
      cases hres
      cases hok

/-- A strictly ascending, integer-valued `double` table whose x-values span less than
`2^31` is reproduced at each of its sample points. -/
theorem Interp_double_sample_point {pointA : List (Point ℚ ℚ)} {N k : Nat}
    {p0 pl pk : Point ℚ ℚ} (hN : 2 ≤ N) (hcap : N ≤ pointA.length) (hM : N < 4294967296)
    (hasc : StrictlyAscending pointA N) (hint : IntegerXs pointA N)
    (h0 : pointA[0]? = some p0) (hl : pointA[N - 1]? = some pl)
    (hspan : pl.xVal - p0.xVal < 2147483648)
    (hk : k < N) (hpk : pointA[k]? = some pk) :
    ∃ r, Interp doubleX doubleY pointA N pk.xVal = Except.ok r ∧
      r.status = status_t.OK ∧ r.yVal = some pk.yVal := by
  have hq0 : p0.xVal ≤ pk.xVal := hasc.nonDecreasing.le (Nat.zero_le _) hk h0 hpk
  have hql : pk.xVal ≤ pl.xVal := hasc.nonDecreasing.le (by omega) (by omega) hpk hl
  obtain ⟨j, pPrev, pI, hj1, hj2, hpp, hpi, hle, hge, hstrict, hlt, hres⟩ :=
    Interp_double_exact hN hcap hM hasc hint h0 hl hspan hq0 hql
  refine ⟨_, hres, rfl, ?_⟩
  have hkj : k ≤ j := by
    by_contra hcon
    exact absurd (hasc.lt (show j < k by omega) hk hpi hpk) (not_lt.mpr hge)
  have hjk : j - 1 ≤ k := by
    by_contra hcon
    exact absurd (hasc.lt (show k < j - 1 by omega) (by omega) hpk hpp) (not_lt.mpr hle)
  have hne : pI.xVal - pPrev.xVal ≠ 0 := by
    have : 0 < pI.xVal - pPrev.xVal := sub_pos.mpr hlt
    exact ne_of_gt this
  rcases Nat.eq_or_lt_of_le hkj with heq | hltk
  · subst heq
    rw [hpk] at hpi
    cases hpi
    show some (pPrev.yVal + (pk.xVal - pPrev.xVal) * (pk.yVal - pPrev.yVal)
      / (pk.xVal - pPrev.xVal)) = some pk.yVal
    congr 1
    field_simp
  · have hk1 : k = j - 1 := by omega
    subst hk1
    rw [hpk] at hpp
    cases hpp
    show some (pk.yVal + (pk.xVal - pk.xVal) * (pI.yVal - pk.yVal)
      / (pI.xVal - pk.xVal)) = some pk.yVal
    simp

/-- The exact linear interpolant over a bracket stays between the two y-values of the
bracket. -/
theorem interpolant_between (a b c d q : ℚ) (hab : a < b) (haq : a ≤ q) (hqb : q ≤ b) :
    min c d ≤ c + (q - a) * (d - c) / (b - a) ∧
    c + (q - a) * (d - c) / (b - a) ≤ max c d := by
  have hpos : 0 < b - a := sub_pos.mpr hab
  have ht0 : 0 ≤ (q - a) / (b - a) := div_nonneg (sub_nonneg.mpr haq) (le_of_lt hpos)
  have ht1 : (q - a) / (b - a) ≤ 1 := by
    rw [div_le_one hpos]
    linarith
  have he : c + (q - a) * (d - c) / (b - a) = c + (q - a) / (b - a) * (d - c) := by
    field_simp
  rw [he]
  rcases le_total c d with hcd | hdc
  · rw [min_eq_left hcd, max_eq_right hcd]
    constructor
    · nlinarith [mul_nonneg ht0 (sub_nonneg.mpr hcd)]
    · nlinarith [mul_nonneg (sub_nonneg.mpr ht1) (sub_nonneg.mpr hcd)]
  · rw [min_eq_right hdc, max_eq_left hdc]
    constructor
    · nlinarith [mul_nonneg (sub_nonneg.mpr ht1) (sub_nonneg.mpr hdc)]
    · nlinarith [mul_nonneg ht0 (sub_nonneg.mpr hdc)]

/-- On a strictly ascending, integer-valued `double` table whose x-values span less than
`2^31`, the value of an in-range query lies between the two y-values of its bracket. -/
theorem Interp_double_between {pointA : List (Point ℚ ℚ)} {N : Nat} {q : ℚ}
    {p0 pl : Point ℚ ℚ} (hN : 2 ≤ N) (hcap : N ≤ pointA.length) (hM : N < 4294967296)
    (hasc : StrictlyAscending pointA N) (hint : IntegerXs pointA N)
    (h0 : pointA[0]? = some p0) (hl : pointA[N - 1]? = some pl)
    (hspan : pl.xVal - p0.xVal < 2147483648)
    (hq0 : p0.xVal ≤ q) (hql : q ≤ pl.xVal) :
    ∃ j pPrev pI v, 1 ≤ j ∧ j ≤ N - 1 ∧ pointA[j - 1]? = some pPrev ∧
      pointA[j]? = some pI ∧
      Interp doubleX doubleY pointA N q = Except.ok ⟨status_t.OK, some v, j⟩ ∧
      min pPrev.yVal pI.yVal ≤ v ∧ v ≤ max pPrev.yVal pI.yVal := by
  obtain ⟨j, pPrev, pI, hj1, hj2, hpp, hpi, hle, hge, _, hlt, hres⟩ :=
    Interp_double_exact hN hcap hM hasc hint h0 hl hspan hq0 hql
  have hb := interpolant_between pPrev.xVal pI.xVal pPrev.yVal pI.yVal q hlt hle hge
  exact ⟨j, pPrev, pI, _, hj1, hj2, hpp, hpi, hres, hb.1, hb.2⟩

theorem NonDecreasingYs.yVal_le {pointA : List (Point ℚ ℚ)} {N : Nat}
    (h : NonDecreasingYs pointA N) {i j : Nat} {pi pj : Point ℚ ℚ}
    (hij : i ≤ j) (hj : j < N) (hi : pointA[i]? = some pi) (hpj : pointA[j]? = some pj) :
    pi.yVal ≤ pj.yVal := by
  rcases Nat.lt_or_ge i j with hlt | hge
  · unfold NonDecreasingYs at h
    rw [List.pairwise_iff_getElem] at h
    have e1 : ((pointA.take N).map Point.yVal)[i]? = some pi.yVal := by
      simp [List.getElem?_take_of_lt (show i < N by omega), hi]
    have e2 : ((pointA.take N).map Point.yVal)[j]? = some pj.yVal := by
      simp [List.getElem?_take_of_lt hj, hpj]
    obtain ⟨h1, h1e⟩ := List.getElem?_eq_some_iff.mp e1
    obtain ⟨h2, h2e⟩ := List.getElem?_eq_some_iff.mp e2
    have := h i j h1 h2 hlt
    rwa [h1e, h2e] at this
  · have : i = j := by omega
    subst this
    rw [hi] at hpj
    cases hpj
    exact le_refl _

/-- On a strictly ascending, integer-valued `double` table whose x-values span less than
`2^31` and whose y-values do not decrease, the value does not decrease with the query,
across the clamped regions and across bracket boundaries. -/
theorem Interp_double_monotone {pointA : List (Point ℚ ℚ)} {N : Nat} {q1 q2 : ℚ}
    {p0 pl : Point ℚ ℚ} (hN : 2 ≤ N) (hcap : N ≤ pointA.length) (hM : N < 4294967296)
    (hasc : StrictlyAscending pointA N) (hint : IntegerXs pointA N)
    (hy : NonDecreasingYs pointA N)
    (h0 : pointA[0]? = some p0) (hl : pointA[N - 1]? = some pl)
    (hspan : pl.xVal - p0.xVal < 2147483648) (hq : q1 ≤ q2) :
    ∃ r1 r2 v1 v2, Interp doubleX doubleY pointA N q1 = Except.ok r1 ∧
      Interp doubleX doubleY pointA N q2 = Except.ok r2 ∧
      r1.yVal = some v1 ∧ r2.yVal = some v2 ∧ v1 ≤ v2 := by
  have hnd := hasc.nonDecreasing
  have hy0l : p0.yVal ≤ pl.yVal := hy.yVal_le (Nat.zero_le _) (by omega) h0 hl
  by_cases hlow1 : q1 < p0.xVal
  · by_cases hlow2 : q2 < p0.xVal
    · exact ⟨_, _, _, _, Interp_low h0 hlow1, Interp_low h0 hlow2, rfl, rfl, le_refl _⟩
    · by_cases hhigh2 : pl.xVal < q2
      · exact ⟨_, _, _, _, Interp_low h0 hlow1,
          Interp_high doubleX doubleY hN hcap hM hnd hl hhigh2, rfl, rfl, hy0l⟩
      · obtain ⟨j, pPrev, pI, v, hj1, hj2, hpp, hpi, hres, hmin, _⟩ :=
          Interp_double_between hN hcap hM hasc hint h0 hl hspan (not_lt.mp hlow2)
            (not_lt.mp hhigh2)
        refine ⟨_, _, _, _, Interp_low h0 hlow1, hres, rfl, rfl, ?_⟩
        have h1 : pPrev.yVal ≤ pI.yVal := hy.yVal_le (by omega) (by omega) hpp hpi
        have h2 : p0.yVal ≤ pPrev.yVal := hy.yVal_le (Nat.zero_le _) (by omega) h0 hpp
        rw [min_eq_left h1] at hmin
        exact le_trans h2 hmin
  · have hlow2 : ¬ q2 < p0.xVal := not_lt.mpr (le_trans (not_lt.mp hlow1) hq)
    by_cases hhigh1 : pl.xVal < q1
    · have hhigh2 : pl.xVal < q2 := lt_of_lt_of_le hhigh1 hq
      exact ⟨_, _, _, _, Interp_high doubleX doubleY hN hcap hM hnd hl hhigh1,
        Interp_high doubleX doubleY hN hcap hM hnd hl hhigh2, rfl, rfl, le_refl _⟩
    · obtain ⟨j1, pa1, pb1, hj1a, hj1b, hpa1, hpb1, hle1, hge1, _, hlt1, hres1⟩ :=
        Interp_double_exact hN hcap hM hasc hint h0 hl hspan (not_lt.mp hlow1)
          (not_lt.mp hhigh1)
      have hbt1 := interpolant_between pa1.xVal pb1.xVal pa1.yVal pb1.yVal q1 hlt1 hle1 hge1
      have hy1 : pa1.yVal ≤ pb1.yVal := hy.yVal_le (by omega) (by omega) hpa1 hpb1
      rw [max_eq_right hy1] at hbt1
      by_cases hhigh2 : pl.xVal < q2
      · refine ⟨_, _, _, _, hres1, Interp_high doubleX doubleY hN hcap hM hnd hl hhigh2,
          rfl, rfl, ?_⟩
        exact le_trans hbt1.2 (hy.yVal_le hj1b (by omega) hpb1 hl)
      · obtain ⟨j2, pa2, pb2, hj2a, hj2b, hpa2, hpb2, hle2, hge2, _, hlt2, hres2⟩ :=
          Interp_double_exact hN hcap hM hasc hint h0 hl hspan (not_lt.mp hlow2)
            (not_lt.mp hhigh2)
        have hbt2 := interpolant_between pa2.xVal pb2.xVal pa2.yVal pb2.yVal q2 hlt2 hle2 hge2
        have hy2 : pa2.yVal ≤ pb2.yVal := hy.yVal_le (by omega) (by omega) hpa2 hpb2
        rw [min_eq_left hy2] at hbt2
        refine ⟨_, _, _, _, hres1, hres2, rfl, rfl, ?_⟩
        rcases Nat.lt_trichotomy j1 j2 with hlt | heq | hgt
        · exact le_trans hbt1.2 (le_trans (hy.yVal_le (by omega) (by omega) hpb1 hpa2) hbt2.1)
        · subst heq
          rw [hpa1] at hpa2
          rw [hpb1] at hpb2
          cases hpa2
          cases hpb2
          have hpos : 0 < pb1.xVal - pa1.xVal := sub_pos.mpr hlt1
          have hnum : (q1 - pa1.xVal) * (pb1.yVal - pa1.yVal)
              ≤ (q2 - pa1.xVal) * (pb1.yVal - pa1.yVal) :=
            mul_le_mul_of_nonneg_right (by linarith) (sub_nonneg.mpr hy1)
          have := div_le_div_of_nonneg_right hnum (le_of_lt hpos)
          linarith
        · have hx : pb2.xVal ≤ pa1.xVal := hnd.le (by omega) (by omega) hpb2 hpa1
          have hq12 : q1 = q2 := le_antisymm hq (le_trans hge2 (le_trans hx hle1))
          subst hq12
          rw [hres1] at hres2
          have hj : j1 = j2 := by
            have := congrArg (fun e => match e with
              | Except.ok r => r.sectionNum
              | Except.error _ => 0) hres2
            simpa using this
          omega

/-! ## Claims -/

section
variable {X Y : Type} [LinearOrder X]

/-- C2. Low clamp: for a table with at least one point and a query below the first
x-value, `Interp` returns status `X_VALUE_OUT_OF_RANGE`, the first y-value and section
number 0, whatever the rest of the table and the active count are. -/
theorem Interp_low_clamp (xt : XType X) (yt : YType Y) (p0 : Point X Y)
    (rest : List (Point X Y)) (N : Nat) (q : X) (hq : q < p0.xVal) :
    Interp xt yt (p0 :: rest) N q
      = Except.ok ⟨status_t.X_VALUE_OUT_OF_RANGE, some p0.yVal, 0⟩ :=
  Interp_low (by simp) hq

/-- C3 (amended). High clamp: for a non-decreasing table with `N ≥ 2` active points
(`N` a `uint32_t` within the capacity) and a query strictly above the last active
x-value, `Interp` returns status `X_VALUE_OUT_OF_RANGE`, the last active y-value and
section number `N`. -/
theorem Interp_high_clamp (xt : XType X) (yt : YType Y) (pointA : List (Point X Y))
    (N : Nat) (q : X) (pl : Point X Y) (hN : 2 ≤ N) (hcap : N ≤ pointA.length)
    (hM : N < 4294967296) (hasc : NonDecreasing pointA N)
    (hl : pointA[N - 1]? = some pl) (hq : pl.xVal < q) :
    Interp xt yt pointA N q
      = Except.ok ⟨status_t.X_VALUE_OUT_OF_RANGE, some pl.yVal, N⟩ :=
  Interp_high xt yt hN hcap hM hasc hl hq

/-- C4. For a non-decreasing table with `N ≥ 2` active points, `Interp` returns a
result whose status is `X_VALUE_OUT_OF_RANGE` exactly when the query is below the first
or above the last active x-value, the value then being the y of that endpoint, and
whose status is `OK` exactly when the query lies inside the range. -/
theorem Interp_status_iff_range (xt : XType X) (yt : YType Y) (pointA : List (Point X Y))
    (N : Nat) (q : X) (p0 pl : Point X Y) (hN : 2 ≤ N) (hcap : N ≤ pointA.length)
    (hM : N < 4294967296) (hasc : NonDecreasing pointA N)
    (h0 : pointA[0]? = some p0) (hl : pointA[N - 1]? = some pl) :
    ∃ r, Interp xt yt pointA N q = Except.ok r ∧
      (r.status = status_t.X_VALUE_OUT_OF_RANGE ↔ (q < p0.xVal ∨ pl.xVal < q)) ∧
      (r.status = status_t.OK ↔ (p0.xVal ≤ q ∧ q ≤ pl.xVal)) ∧
      (q < p0.xVal → r.yVal = some p0.yVal) ∧
      (pl.xVal < q → r.yVal = some pl.yVal) := by
  have hle0 : p0.xVal ≤ pl.xVal := hasc.le (Nat.zero_le _) (by omega) h0 hl
  by_cases hlow : q < p0.xVal
  · refine ⟨_, Interp_low h0 hlow, ?_, ?_, ?_, ?_⟩
    · simp [hlow]
    · simp [not_le.mpr hlow]
    · intro _; rfl
    · intro h; exact absurd (lt_of_le_of_lt hle0 h) (not_lt.mpr (le_of_lt hlow))
  · by_cases hhigh : pl.xVal < q
    · refine ⟨_, Interp_high xt yt hN hcap hM hasc hl hhigh, ?_, ?_, ?_, ?_⟩
      · simp [hhigh]
      · simp [not_le.mpr hhigh]
      · intro h; exact absurd h hlow
      · intro _; rfl
    · rcases Interp_spec xt yt hN hcap hM h0 hlow with
        ⟨j, pj, pPrev, _, _, _, _, _, _, hres⟩ | ⟨pl2, hpl2, hall, _⟩
      · refine ⟨_, hres, ?_, ?_, ?_, ?_⟩
        · simp [hlow, hhigh]
        · simp [not_lt.mp hlow, not_lt.mp hhigh]
        · intro h; exact absurd h hlow
        · intro h; exact absurd h hhigh
      · exact absurd (hall (N - 1) pl (by omega) (le_refl _) hl) hhigh

/-- C5. Section numbering: for a strictly ascending table with `N ≥ 2` active points,
`Interp` returns section number 0 for a query below the first x-value, section number
`k` for a query strictly between the x-values at `k-1` and `k` (`1 ≤ k ≤ N-1`), and
section number `N` for a query above the last active x-value. -/
theorem Interp_sectionNum (xt : XType X) (yt : YType Y) (pointA : List (Point X Y))
    (N : Nat) (hN : 2 ≤ N) (hcap : N ≤ pointA.length) (hM : N < 4294967296)
    (hasc : StrictlyAscending pointA N) :
    (∀ q p0, pointA[0]? = some p0 → q < p0.xVal →
        ∃ r, Interp xt yt pointA N q = Except.ok r ∧ r.sectionNum = 0) ∧
    (∀ q k pa pb, 1 ≤ k → k ≤ N - 1 → pointA[k - 1]? = some pa → pointA[k]? = some pb →
        pa.xVal < q → q < pb.xVal →
        ∃ r, Interp xt yt pointA N q = Except.ok r ∧ r.sectionNum = k) ∧
    (∀ q pl, pointA[N - 1]? = some pl → pl.xVal < q →
        ∃ r, Interp xt yt pointA N q = Except.ok r ∧ r.sectionNum = N) := by
  refine ⟨?_, ?_, ?_⟩
  · intro q p0 h0 hq
    exact ⟨_, Interp_low h0 hq, rfl⟩
  · intro q k pa pb hk1 hk2 ha hb hlo hhi
    have hlt : 0 < pointA.length := by omega
    have h0 : pointA[0]? = some (pointA[0]) := List.getElem?_eq_getElem hlt
    have hq0 : (pointA[0]).xVal ≤ q :=
      le_of_lt (lt_of_le_of_lt (hasc.nonDecreasing.le (Nat.zero_le _) (by omega) h0 ha) hlo)
    exact ⟨_, Interp_bracket xt yt hN hcap hM hasc.nonDecreasing h0 hq0 hk1 hk2 ha hb
      (Or.inr hlo) (le_of_lt hhi), rfl⟩
  · intro q pl hl hq
    exact ⟨_, Interp_high xt yt hN hcap hM hasc.nonDecreasing hl hq, rfl⟩

/-- C6. Boundary equality: for a strictly ascending table with `N ≥ 3` active points
and an interior index `k` (`1 ≤ k ≤ N-2`), the query equal to the x-value at `k`
returns status `OK` with section number `k`, the bracket ending at point `k`. -/
theorem Interp_at_interior_point (xt : XType X) (yt : YType Y) (pointA : List (Point X Y))
    (N k : Nat) (pk : Point X Y) (hN : 3 ≤ N) (hcap : N ≤ pointA.length)
    (hM : N < 4294967296) (hasc : StrictlyAscending pointA N)
    (hk1 : 1 ≤ k) (hk2 : k ≤ N - 2) (hk : pointA[k]? = some pk) :
    ∃ r, Interp xt yt pointA N pk.xVal = Except.ok r ∧ r.status = status_t.OK ∧
      r.sectionNum = k ∧ r.sectionNum ≠ k + 1 := by
  have hlt : 0 < pointA.length := by omega
  have h0 : pointA[0]? = some (pointA[0]) := List.getElem?_eq_getElem hlt
  have hlt1 : k - 1 < pointA.length := by omega
  have ha : pointA[k - 1]? = some (pointA[k - 1]) := List.getElem?_eq_getElem hlt1
  have hq0 : (pointA[0]).xVal ≤ pk.xVal :=
    hasc.nonDecreasing.le (Nat.zero_le _) (by omega) h0 hk
  have hlo : (pointA[k - 1]).xVal < pk.xVal := hasc.lt (by omega) (by omega) ha hk
  exact ⟨_, Interp_bracket xt yt (by omega) hcap hM hasc.nonDecreasing h0 hq0 hk1 (by omega)
    ha hk (Or.inr hlo) (le_refl _), rfl, rfl, by simp⟩

/-- C7. Active-count window: for `N ≥ 2` and two backing tables of capacity at least `N`
with the same first `N` entries, `Interp` returns the same result for every query; the
result is the one on the table cut down to its first `N` entries, and it is a proper
result, so no index at or beyond `N` is read. -/
theorem Interp_active_window (xt : XType X) (yt : YType Y) (t1 t2 : List (Point X Y))
    (N : Nat) (q : X) (hN : 2 ≤ N) (hM : N < 4294967296)
    (hc1 : N ≤ t1.length) (_hc2 : N ≤ t2.length) (heq : t1.take N = t2.take N) :
    Interp xt yt t1 N q = Interp xt yt t2 N q ∧
    Interp xt yt t1 N q = Interp xt yt (t1.take N) N q ∧
    ∃ r, Interp xt yt (t1.take N) N q = Except.ok r := by
  refine ⟨Interp_congr xt yt q hN hM (take_agree heq), ?_, ?_⟩
  · exact Interp_congr xt yt q hN hM (take_agree (by simp))
  · have hlen : N ≤ (t1.take N).length := by simp [hc1]
    have hlt : 0 < (t1.take N).length := by omega
    have h0 : (t1.take N)[0]? = some ((t1.take N)[0]) := List.getElem?_eq_getElem hlt
    by_cases hq : q < ((t1.take N)[0]).xVal
    · exact ⟨_, Interp_low h0 hq⟩
    · rcases Interp_spec xt yt hN hlen hM h0 hq with
        ⟨_, _, _, _, _, _, _, _, _, hres⟩ | ⟨_, _, _, hres⟩
      · exact ⟨_, hres⟩
      · exact ⟨_, hres⟩

/-- C8. On the two-point `double` table (0,a),(1,b) with 2 active points, the query 0.5
returns status `OK` and, in exact arithmetic, the value `(a+b)/2` (in section 1), for
every pair of y-values `a`, `b`. -/
theorem Interp_midpoint (a b : ℚ) :
    Interp doubleX doubleY [⟨0, a⟩, ⟨1, b⟩] 2 (1 / 2)
      = Except.ok ⟨status_t.OK, some ((a + b) / 2), 1⟩ := by
  have hasc : NonDecreasing [(⟨0, a⟩ : Point ℚ ℚ), ⟨1, b⟩] 2 := by
    simp [NonDecreasing, activeXs]
  have hd : xDiff doubleX (⟨0, a⟩ : Point ℚ ℚ) ⟨1, b⟩ = 1 := by
    simp [xDiff, doubleX, wrapInt32, truncQ]
  have hb : blend doubleX doubleY (⟨0, a⟩ : Point ℚ ℚ) ⟨1, b⟩ (1 / 2) = some ((a + b) / 2) := by
    simp only [blend, hd]
    simp only [doubleX, doubleY]
    norm_num
    ring
  rw [← hb]
  exact Interp_bracket doubleX doubleY (le_refl 2) (by simp) (by norm_num) hasc
    (show [(⟨0, a⟩ : Point ℚ ℚ), ⟨1, b⟩][0]? = some ⟨0, a⟩ by simp) (by norm_num) (le_refl 1) (by norm_num) (by simp) (by simp)
    (Or.inl rfl) (by norm_num)

/-- C9. With one active point and a query not below the first x-value, the scan starts
at index 1, outside the active window, and its guard index 0 is not met: when every
stored x-value from index 1 on is below the query (in particular when the capacity is 1)
the scan reads past the end of the backing table and the call ends in the
out-of-bounds fault. -/
theorem Interp_one_point_out_of_bounds (xt : XType X) (yt : YType Y)
    (pointA : List (Point X Y)) (q : X) (p0 : Point X Y)
    (h0 : pointA[0]? = some p0) (hlen : pointA.length < 4294967296)
    (hq : p0.xVal ≤ q)
    (hall : ∀ k pk, 1 ≤ k → pointA[k]? = some pk → pk.xVal < q) :
    whileLoop pointA 1 q 4294967296 1 = LoopExit.outOfBounds ∧
    Interp xt yt pointA 1 q = Except.error Fault.outOfBounds := by
  have hpos : 0 < pointA.length := (List.getElem?_eq_some_iff.mp h0).1
  have hw := whileLoop_runs_off hlen hall 4294967296 1 (le_refl _) (by omega) (by omega)
  refine ⟨hw, ?_⟩
  simp [Interp, h0, not_lt.mpr hq, hw]

/-- C10. Totality on valid tables: for `2 ≤ N ≤ capacity` (x-values in any order) and
every query, the bracket scan ends within `N-1` evaluations of its condition, that is
after at most `N-2` increments of the index, at an index between 1 and `N-1`, and
`Interp` returns a result. -/
theorem Interp_total (xt : XType X) (yt : YType Y) (pointA : List (Point X Y))
    (N : Nat) (q : X) (hN : 2 ≤ N) (hcap : N ≤ pointA.length) (hM : N < 4294967296) :
    (∃ j, 1 ≤ j ∧ j ≤ N - 1 ∧
      (whileLoop pointA N q (N - 1) 1 = LoopExit.found j ∨
        whileLoop pointA N q (N - 1) 1 = LoopExit.clamp j) ∧
      whileLoop pointA N q 4294967296 1 = whileLoop pointA N q (N - 1) 1) ∧
    ∃ r, Interp xt yt pointA N q = Except.ok r := by
  constructor
  · rcases whileLoop_spec (q := q) hN hcap hM (N - 1) 1 (le_refl _) (by omega) (by omega) with
      ⟨j, pj, hj1, hj2, hres, _, _, _⟩ | ⟨hres, _⟩
    · refine ⟨j, hj1, hj2, Or.inl hres, ?_⟩
      exact whileLoop_fuel_mono pointA N q _ _ (by rw [hres]; simp) _ (by omega)
    · refine ⟨N - 1, by omega, le_refl _, Or.inr hres, ?_⟩
      exact whileLoop_fuel_mono pointA N q _ _ (by rw [hres]; simp) _ (by omega)
  · have hlt : 0 < pointA.length := by omega
    have h0 : pointA[0]? = some (pointA[0]) := List.getElem?_eq_getElem hlt
    by_cases hq : q < (pointA[0]).xVal
    · exact ⟨_, Interp_low h0 hq⟩
    · rcases Interp_spec xt yt hN hcap hM h0 hq with
        ⟨_, _, _, _, _, _, _, _, _, hres⟩ | ⟨_, _, _, hres⟩
      · exact ⟨_, hres⟩
      · exact ⟨_, hres⟩

/-- C18. The section number is monotone in the query: for a table with `N ≥ 2` active
points (x-values in any order) and two queries `q1 ≤ q2`, both calls return a result
and the section number of the first is at most the section number of the second. -/
theorem Interp_sectionNum_mono (xt : XType X) (yt : YType Y) (pointA : List (Point X Y))
    (N : Nat) (q1 q2 : X) (hN : 2 ≤ N) (hcap : N ≤ pointA.length) (hM : N < 4294967296)
    (hq : q1 ≤ q2) :
    ∃ r1 r2, Interp xt yt pointA N q1 = Except.ok r1 ∧
      Interp xt yt pointA N q2 = Except.ok r2 ∧ r1.sectionNum ≤ r2.sectionNum := by
  have hlt : 0 < pointA.length := by omega
  have h0 : pointA[0]? = some (pointA[0]) := List.getElem?_eq_getElem hlt
  by_cases hlow1 : q1 < (pointA[0]).xVal
  · have hex : ∃ r2, Interp xt yt pointA N q2 = Except.ok r2 := by
      by_cases hlow2 : q2 < (pointA[0]).xVal
      · exact ⟨_, Interp_low h0 hlow2⟩
      · rcases Interp_spec xt yt hN hcap hM h0 hlow2 with
          ⟨_, _, _, _, _, _, _, _, _, hres⟩ | ⟨_, _, _, hres⟩
        · exact ⟨_, hres⟩
        · exact ⟨_, hres⟩
    obtain ⟨r2, hr2⟩ := hex
    exact ⟨_, r2, Interp_low h0 hlow1, hr2, Nat.zero_le _⟩
  · have hlow2 : ¬ q2 < (pointA[0]).xVal :=
      not_lt.mpr (le_trans (not_lt.mp hlow1) hq)
    rcases Interp_spec xt yt hN hcap hM h0 hlow1 with
      ⟨j1, pj1, _, hj1a, hj1b, hpj1, _, hn1, hall1, hres1⟩ | ⟨_, _, hall1, hres1⟩
    · rcases Interp_spec xt yt hN hcap hM h0 hlow2 with
        ⟨j2, pj2, _, hj2a, hj2b, hpj2, _, hn2, hall2, hres2⟩ | ⟨_, _, hall2, hres2⟩
      · refine ⟨_, _, hres1, hres2, ?_⟩
        show j1 ≤ j2
        by_contra hcon
        have hlt12 : j2 < j1 := by omega
        exact hn2 (lt_of_lt_of_le (hall1 j2 pj2 hj2a hlt12 hpj2) hq)
      · refine ⟨_, _, hres1, hres2, ?_⟩
        show j1 ≤ N
        omega
    · rcases Interp_spec xt yt hN hcap hM h0 hlow2 with
        ⟨j2, pj2, _, hj2a, hj2b, hpj2, _, hn2, hall2, hres2⟩ | ⟨_, _, hall2, hres2⟩
      · exact absurd (lt_of_lt_of_le (hall1 j2 pj2 hj2a hj2b hpj2) hq) hn2
      · exact ⟨_, _, hres1, hres2, le_refl N⟩

/-- C19. Status and section number agree: for a table with `N ≥ 2` active points
(x-values in any order) and every query, `Interp` returns a result whose section number
is at most `N`, whose status is `OK` exactly when the section number lies in
`[1, N-1]`, and whose status is `X_VALUE_OUT_OF_RANGE` exactly when the section number
is 0 or `N`. -/
theorem Interp_status_iff_sectionNum (xt : XType X) (yt : YType Y)
    (pointA : List (Point X Y)) (N : Nat) (q : X) (hN : 2 ≤ N) (hcap : N ≤ pointA.length)
    (hM : N < 4294967296) :
    ∃ r, Interp xt yt pointA N q = Except.ok r ∧ r.sectionNum ≤ N ∧
      (r.status = status_t.OK ↔ (1 ≤ r.sectionNum ∧ r.sectionNum ≤ N - 1)) ∧
      (r.status = status_t.X_VALUE_OUT_OF_RANGE ↔ (r.sectionNum = 0 ∨ r.sectionNum = N)) := by
  have hlt : 0 < pointA.length := by omega
  have h0 : pointA[0]? = some (pointA[0]) := List.getElem?_eq_getElem hlt
  by_cases hlow : q < (pointA[0]).xVal
  · refine ⟨_, Interp_low h0 hlow, Nat.zero_le _, ?_, ?_⟩
    · simp
    · simp
  · rcases Interp_spec xt yt hN hcap hM h0 hlow with
      ⟨j, _, _, hj1, hj2, _, _, _, _, hres⟩ | ⟨_, _, _, hres⟩
    · refine ⟨_, hres, ?_, ?_, ?_⟩
      · show j ≤ N
        omega
      · simp only [true_iff]
        exact ⟨hj1, hj2⟩
      · constructor
        · intro h
          cases h
        · intro h
          have h2 : j = 0 ∨ j = N := h
          omega
    · refine ⟨_, hres, le_refl N, ?_, ?_⟩
      · constructor
        · intro h
          cases h
        · intro h
          have h2 : 1 ≤ N ∧ N ≤ N - 1 := h
          omega
      · simp

end

section
variable {X Y : Type} [LinearOrderedAddCommGroup X]

end

/-- C13 (amended). For `LinInterp<int32_t, int32_t>`, a strictly ascending table with
`N ≥ 2` active points whose coordinates lie in `[-2^30, 2^30)` and for which the product
of the x-distance and the y-distance of any two active points is below `2^53`, and an
in-range query: the status is `OK` and the value is the quotient
`(q - table[i-1].x) * (table[i].y - table[i-1].y) / (table[i].x - table[i-1].x)`,
truncated toward zero, plus `table[i-1].y`, the sum being taken in integers after the
cast; `i` is the returned section number. The value is the same when the product and
the quotient are rounded to `double` before the cast. -/
theorem Interp_int32_truncates_quotient (pointA : List (Point Int Int)) (N : Nat) (q : Int)
    (p0 pl : Point Int Int) (hN : 2 ≤ N) (hcap : N ≤ pointA.length) (hM : N < 4294967296)
    (hasc : StrictlyAscending pointA N)
    (hfit : ∀ p ∈ pointA.take N, Fits30 p.xVal ∧ Fits30 p.yVal)
    (hprod : SmallProducts pointA N)
    (h0 : pointA[0]? = some p0) (hl : pointA[N - 1]? = some pl)
    (hq0 : p0.xVal ≤ q) (hql : q ≤ pl.xVal) :
    ∃ r pPrev pI, Interp int32X int32Y pointA N q = Except.ok r ∧
      r.status = status_t.OK ∧
      pointA[r.sectionNum - 1]? = some pPrev ∧ pointA[r.sectionNum]? = some pI ∧
      r.yVal = some (truncQ (((q - pPrev.xVal : Int) : ℚ) * ((pI.yVal - pPrev.yVal : Int) : ℚ)
          / ((pI.xVal - pPrev.xVal : Int) : ℚ)) + pPrev.yVal) ∧
      ∀ fl, IsRounding fl → blendInt32Rounded fl pPrev pI q = r.yVal := by
  obtain ⟨j, pPrev, pI, _, _, hpp, hpi, _, _, _, hres, hfl⟩ :=
    Interp_int32 hN hcap hM hasc hfit hprod h0 hl hq0 hql
  exact ⟨_, pPrev, pI, hres, rfl, hpp, hpi, rfl, hfl⟩

/-! ## Concrete calls -/

theorem table2_nonDecreasing : NonDecreasing table2 2 := by
  simp [NonDecreasing, activeXs, table2]

theorem table3_strictlyAscending : StrictlyAscending table3 3 := by
  simp [StrictlyAscending, activeXs, table3]

theorem tableHalf_strictlyAscending : StrictlyAscending tableHalf 2 := by
  simp [StrictlyAscending, activeXs, tableHalf]

theorem truncQ_zero : truncQ 0 = 0 := by
  simp [truncQ]

theorem truncQ_three_halves : truncQ (3 / 2) = 1 := by
  unfold truncQ
  norm_num
  decide

/-- C1 (failing input). On the strictly ascending `double` table (0,0),(1.5,3) with 2
active points, the in-range query 1.5 gets status `OK` in section 1, but the divisor is
`(int32_t)1.5 - (int32_t)0 = 1` and not the x-difference 1.5: the value is 4.5, whereas
the formula of the claim, with the exact divisor, gives 3, the y-value stored at 1.5. -/
theorem Interp_double_divisor_truncated :
    StrictlyAscending tableHalf 2 ∧
    xDiff doubleX (⟨0, 0⟩ : Point ℚ ℚ) ⟨3 / 2, 3⟩ = 1 ∧
    Interp doubleX doubleY tableHalf 2 (3 / 2)
      = Except.ok ⟨status_t.OK, some (9 / 2), 1⟩ ∧
    (0 : ℚ) + (3 / 2 - 0) * (3 - 0) / (3 / 2 - 0) = 3 := by
  have hd : xDiff doubleX (⟨0, 0⟩ : Point ℚ ℚ) ⟨3 / 2, 3⟩ = 1 := by
    simp [xDiff, doubleX, wrapInt32, truncQ_three_halves, truncQ_zero]
  have hb : blend doubleX doubleY (⟨0, 0⟩ : Point ℚ ℚ) ⟨3 / 2, 3⟩ (3 / 2) = some (9 / 2) := by
    simp only [blend, hd]
    simp only [doubleX, doubleY]
    norm_num
  refine ⟨tableHalf_strictlyAscending, hd, ?_, by norm_num⟩
  rw [← hb]
  exact Interp_bracket doubleX doubleY (le_refl 2) (by simp [tableHalf]) (by norm_num)
    tableHalf_strictlyAscending.nonDecreasing (show tableHalf[0]? = some ⟨0, 0⟩ by simp [tableHalf])
    (by norm_num) (le_refl 1) (by norm_num) (by simp [tableHalf]) (by simp [tableHalf])
    (Or.inl rfl) (by norm_num)

/-- C2 (witness). The call of `xValueBelowMinimumTest`: table (0,0),(1,1), query -1. -/
theorem Interp_low_clamp_witness :
    (-1 : ℚ) < 0 ∧
    Interp doubleX doubleY [⟨0, 0⟩, ⟨1, 1⟩] 2 (-1)
      = Except.ok ⟨status_t.X_VALUE_OUT_OF_RANGE, some 0, 0⟩ :=
  ⟨by norm_num, Interp_low_clamp doubleX doubleY ⟨0, 0⟩ [⟨1, 1⟩] 2 (-1) (by norm_num)⟩

/-- C3 (counterexample). On the table (0,0),(1,1) with 2 active points the query 1,
equal to the last active x-value, is interpolated: status `OK`, section 1, and not the
clamp with status `X_VALUE_OUT_OF_RANGE` and section 2. -/
theorem Interp_at_last_point_not_clamped :
    StrictlyAscending table2 2 ∧
    Interp doubleX doubleY table2 2 1 = Except.ok ⟨status_t.OK, some 1, 1⟩ ∧
    Interp doubleX doubleY table2 2 1
      ≠ Except.ok ⟨status_t.X_VALUE_OUT_OF_RANGE, some 1, 2⟩ := by
  have hd : xDiff doubleX (⟨0, 0⟩ : Point ℚ ℚ) ⟨1, 1⟩ = 1 := by
    simp [xDiff, doubleX, wrapInt32, truncQ]
  have hb : blend doubleX doubleY (⟨0, 0⟩ : Point ℚ ℚ) ⟨1, 1⟩ 1 = some 1 := by
    simp only [blend, hd]
    simp only [doubleX, doubleY]
    norm_num
  have he : Interp doubleX doubleY table2 2 1 = Except.ok ⟨status_t.OK, some 1, 1⟩ := by
    rw [← hb]
    exact Interp_bracket doubleX doubleY (le_refl 2) (by simp [table2]) (by norm_num)
      table2_nonDecreasing (show table2[0]? = some ⟨0, 0⟩ by simp [table2])
      (by norm_num) (le_refl 1) (by norm_num) (by simp [table2]) (by simp [table2])
      (Or.inl rfl) (by norm_num)
  refine ⟨by simp [StrictlyAscending, activeXs, table2], he, ?_⟩
  rw [he]
  simp

/-- C3 (witness). The call of `xValueAboveMaximumTest`: table (0,0),(1,1), query 2. -/
theorem Interp_high_clamp_witness :
    NonDecreasing table2 2 ∧ (1 : ℚ) < 2 ∧
    Interp doubleX doubleY table2 2 2
      = Except.ok ⟨status_t.X_VALUE_OUT_OF_RANGE, some 1, 2⟩ :=
  ⟨table2_nonDecreasing, by norm_num,
    Interp_high_clamp doubleX doubleY table2 2 2 ⟨1, 1⟩ (le_refl 2) (by simp [table2])
      (by norm_num) table2_nonDecreasing (by simp [table2]) (by norm_num)⟩

/-- C4 (witness). Table (0,0),(1,1) with 2 active points, query 0.5. -/
theorem Interp_status_iff_range_witness :
    ∃ r, Interp doubleX doubleY table2 2 (1 / 2) = Except.ok r ∧
      (r.status = status_t.X_VALUE_OUT_OF_RANGE ↔ ((1 / 2 : ℚ) < 0 ∨ (1 : ℚ) < 1 / 2)) ∧
      (r.status = status_t.OK ↔ ((0 : ℚ) ≤ 1 / 2 ∧ (1 / 2 : ℚ) ≤ 1)) ∧
      ((1 / 2 : ℚ) < 0 → r.yVal = some 0) ∧
      ((1 : ℚ) < 1 / 2 → r.yVal = some 1) :=
  Interp_status_iff_range doubleX doubleY table2 2 (1 / 2) ⟨0, 0⟩ ⟨1, 1⟩ (le_refl 2)
    (by simp [table2]) (by norm_num) table2_nonDecreasing (by simp [table2])
    (by simp [table2])

/-- C5 (witness). The four calls of `SectionNumTest` on the table (0,0),(1,1),(2,2):
queries -1, 0.5, 1.5 and 2.5 fall in sections 0, 1, 2 and 3. -/
theorem Interp_sectionNum_witness :
    (∃ r, Interp doubleX doubleY table3 3 (-1) = Except.ok r ∧ r.sectionNum = 0) ∧
    (∃ r, Interp doubleX doubleY table3 3 (1 / 2) = Except.ok r ∧ r.sectionNum = 1) ∧
    (∃ r, Interp doubleX doubleY table3 3 (3 / 2) = Except.ok r ∧ r.sectionNum = 2) ∧
    (∃ r, Interp doubleX doubleY table3 3 (5 / 2) = Except.ok r ∧ r.sectionNum = 3) := by
  have h := Interp_sectionNum doubleX doubleY table3 3 (by norm_num) (by simp [table3])
    (by norm_num) table3_strictlyAscending
  refine ⟨?_, ?_, ?_, ?_⟩
  · exact h.1 (-1) ⟨0, 0⟩ (by simp [table3]) (by norm_num)
  · exact h.2.1 (1 / 2) 1 ⟨0, 0⟩ ⟨1, 1⟩ (le_refl 1) (by norm_num) (by simp [table3])
      (by simp [table3]) (by norm_num) (by norm_num)
  · exact h.2.1 (3 / 2) 2 ⟨1, 1⟩ ⟨2, 2⟩ (by norm_num) (by norm_num) (by simp [table3])
      (by simp [table3]) (by norm_num) (by norm_num)
  · exact h.2.2 (5 / 2) ⟨2, 2⟩ (by simp [table3]) (by norm_num)

/-- C6 (witness). Table (0,0),(1,1),(2,2) with 3 active points, query equal to the
interior x-value 1. -/
theorem Interp_at_interior_point_witness :
    ∃ r, Interp doubleX doubleY table3 3 1 = Except.ok r ∧ r.status = status_t.OK ∧
      r.sectionNum = 1 ∧ r.sectionNum ≠ 1 + 1 :=
  Interp_at_interior_point doubleX doubleY table3 3 1 ⟨1, 1⟩ (le_refl 3)
    (by simp [table3]) (by norm_num) table3_strictlyAscending (le_refl 1) (by norm_num)
    (by simp [table3])

/-- C7 (witness). The call of `OnlyLooksAtNumPointsTest`: 2 active points, query 1.5, on
two backing tables that differ at index 2 only. -/
theorem Interp_active_window_witness :
    Interp doubleX doubleY table3 2 (3 / 2)
        = Interp doubleX doubleY [⟨0, 0⟩, ⟨1, 1⟩, ⟨5, 7⟩] 2 (3 / 2) ∧
    Interp doubleX doubleY table3 2 (3 / 2)
        = Interp doubleX doubleY (table3.take 2) 2 (3 / 2) ∧
    ∃ r, Interp doubleX doubleY (table3.take 2) 2 (3 / 2) = Except.ok r :=
  Interp_active_window doubleX doubleY table3 [⟨0, 0⟩, ⟨1, 1⟩, ⟨5, 7⟩] 2 (3 / 2)
    (le_refl 2) (by norm_num) (by simp [table3]) (by simp) (by simp [table3])

/-- C9 (witness). A backing table of capacity 1 with one active point, query 1. -/
theorem Interp_one_point_out_of_bounds_witness :
    whileLoop [(⟨0, 0⟩ : Point ℚ ℚ)] 1 1 4294967296 1 = LoopExit.outOfBounds ∧
    Interp doubleX doubleY [⟨0, 0⟩] 1 1 = Except.error Fault.outOfBounds :=
  Interp_one_point_out_of_bounds doubleX doubleY [⟨0, 0⟩] 1 ⟨0, 0⟩ (by simp) (by simp)
    (by norm_num) (by
      intro k pk hk h
      rw [List.getElem?_eq_none (by simpa using hk)] at h
      cases h)

/-- C10 (witness). Table (0,0),(1,1),(2,2) with 3 active points, query 1.5. -/
theorem Interp_total_witness :
    (∃ j, 1 ≤ j ∧ j ≤ 3 - 1 ∧
      (whileLoop table3 3 (3 / 2) (3 - 1) 1 = LoopExit.found j ∨
        whileLoop table3 3 (3 / 2) (3 - 1) 1 = LoopExit.clamp j) ∧
      whileLoop table3 3 (3 / 2) 4294967296 1 = whileLoop table3 3 (3 / 2) (3 - 1) 1) ∧
    ∃ r, Interp doubleX doubleY table3 3 (3 / 2) = Except.ok r :=
  Interp_total doubleX doubleY table3 3 (3 / 2) (by norm_num) (by simp [table3])
    (by norm_num)

theorem tableWide_strictlyAscending : StrictlyAscending tableWide 2 := by
  simp only [StrictlyAscending, activeXs, tableWide, List.take, List.map, List.pairwise_cons]
  norm_num

theorem xDiff_tableWide :
    xDiff doubleX (⟨-2147483648, 0⟩ : Point ℚ ℚ) ⟨2147483647, 1⟩ = -1 := by
  have h1 : truncQ (2147483647 : ℚ) = 2147483647 := by simp [truncQ]
  have h2 : truncQ (-2147483648 : ℚ) = -2147483648 := by simp [truncQ]
  simp only [xDiff, doubleX, h1, h2]
  decide

/-- The in-range calls on `tableWide` all select section 1 and blend with divisor -1. -/
theorem Interp_tableWide (q : ℚ) (h1 : -2147483648 ≤ q) (h2 : q ≤ 2147483647) :
    Interp doubleX doubleY tableWide 2 q
      = Except.ok ⟨status_t.OK, some (-(q + 2147483648)), 1⟩ := by
  have hb : blend doubleX doubleY (⟨-2147483648, 0⟩ : Point ℚ ℚ) ⟨2147483647, 1⟩ q
      = some (-(q + 2147483648)) := by
    simp only [blend, xDiff_tableWide]
    simp only [doubleX, doubleY]
    norm_num
    ring
  rw [← hb]
  exact Interp_bracket doubleX doubleY (le_refl 2) (by simp [tableWide]) (by norm_num)
    tableWide_strictlyAscending.nonDecreasing
    (show tableWide[0]? = some ⟨-2147483648, 0⟩ by simp [tableWide])
    h1 (le_refl 1) (by norm_num) (by simp [tableWide]) (by simp [tableWide])
    (Or.inl rfl) h2

/-- C14 (failing input). On the `double` table (-2147483648, 0), (2147483647, 1) with 2
active points, whose x-values are integers of the `int32_t` range, the query 0 reaches
the interpolation branch (status `OK`, section 1) with the divisor `xDiff = -1`, which
is negative: the difference 4294967295 of the two x-values does not fit `int32_t`. -/
theorem Interp_xDiff_negative :
    StrictlyAscending tableWide 2 ∧
    (2147483647 : Int) - (-2147483648) = 4294967295 ∧
    xDiff doubleX (⟨-2147483648, 0⟩ : Point ℚ ℚ) ⟨2147483647, 1⟩ = -1 ∧
    Interp doubleX doubleY tableWide 2 0
      = Except.ok ⟨status_t.OK, some (-2147483648), 1⟩ := by
  refine ⟨tableWide_strictlyAscending, by norm_num, xDiff_tableWide, ?_⟩
  rw [Interp_tableWide 0 (by norm_num) (by norm_num)]
  norm_num

/-- C15 (failing input). On the `double` table (-2147483648, 0), (2147483647, 1) with 2
active points the query 2147483647, the x-value of the last sample point, returns
status `OK` with the value -4294967295 and not the stored y-value 1. -/
theorem Interp_misses_sample_point :
    StrictlyAscending tableWide 2 ∧
    Interp doubleX doubleY tableWide 2 2147483647
      = Except.ok ⟨status_t.OK, some (-4294967295), 1⟩ ∧
    (-4294967295 : ℚ) ≠ 1 := by
  refine ⟨tableWide_strictlyAscending, ?_, by norm_num⟩
  rw [Interp_tableWide 2147483647 (by norm_num) (by norm_num)]
  norm_num

/-- C16 (failing input). On the `double` table (-2147483648, 0), (2147483647, 1) with 2
active points the query 1 returns status `OK` in section 1 with the value -2147483649,
which is not between the two y-values 0 and 1 of that bracket. -/
theorem Interp_leaves_y_range :
    StrictlyAscending tableWide 2 ∧
    Interp doubleX doubleY tableWide 2 1
      = Except.ok ⟨status_t.OK, some (-2147483649), 1⟩ ∧
    ¬ (min (0 : ℚ) 1 ≤ -2147483649 ∧ (-2147483649 : ℚ) ≤ max 0 1) := by
  refine ⟨tableWide_strictlyAscending, ?_, by norm_num⟩
  rw [Interp_tableWide 1 (by norm_num) (by norm_num)]
  norm_num

/-- C17 (failing input). On the `double` table (-2147483648, 0), (2147483647, 1) with 2
active points, whose y-values do not decrease, the queries 10 and 20 return the values
-2147483658 and -2147483668: the larger query gets the smaller value. -/
theorem Interp_not_monotone :
    StrictlyAscending tableWide 2 ∧ (0 : ℚ) ≤ 1 ∧ (10 : ℚ) ≤ 20 ∧
    Interp doubleX doubleY tableWide 2 10
      = Except.ok ⟨status_t.OK, some (-2147483658), 1⟩ ∧
    Interp doubleX doubleY tableWide 2 20
      = Except.ok ⟨status_t.OK, some (-2147483668), 1⟩ ∧
    ¬ ((-2147483658 : ℚ) ≤ -2147483668) := by
  refine ⟨tableWide_strictlyAscending, by norm_num, by norm_num, ?_, ?_, by norm_num⟩
  · rw [Interp_tableWide 10 (by norm_num) (by norm_num)]
    norm_num
  · rw [Interp_tableWide 20 (by norm_num) (by norm_num)]
    norm_num

theorem tableU32_nonDecreasing : NonDecreasing tableU32 2 := by
  simp [NonDecreasing, activeXs, tableU32]

/-- C12 (failing input). For the adjacent `uint32_t` x-values 0 and 2147483648 the
computed `xDiff` is -2147483648 and not the difference 2147483648; on the table
(0, 0), (2147483648, 1) with 2 active points the query 1073741824, halfway, returns
status `OK` with the value -1/2. -/
theorem xDiff_uint32_wraps :
    (0 : Int) ≤ 2147483648 ∧ (2147483648 : Int) < 4294967296 ∧
    xDiff uint32X (⟨0, 0⟩ : Point Int ℚ) ⟨2147483648, 1⟩ = -2147483648 ∧
    (2147483648 : Int) - 0 = 2147483648 ∧
    Interp uint32X doubleY tableU32 2 1073741824
      = Except.ok ⟨status_t.OK, some (-1 / 2), 1⟩ := by
  have hd : xDiff uint32X (⟨0, 0⟩ : Point Int ℚ) ⟨2147483648, 1⟩ = -2147483648 := by
    decide
  have hb : blend uint32X doubleY (⟨0, 0⟩ : Point Int ℚ) ⟨2147483648, 1⟩ 1073741824
      = some (-1 / 2) := by
    simp only [blend, hd]
    simp only [uint32X, doubleY, wrapUInt32]
    norm_num
  refine ⟨by norm_num, by norm_num, hd, by norm_num, ?_⟩
  rw [← hb]
  exact Interp_bracket uint32X doubleY (le_refl 2) (by simp [tableU32]) (by norm_num)
    tableU32_nonDecreasing
    (show tableU32[0]? = some ⟨0, 0⟩ by simp [tableU32])
    (by norm_num) (le_refl 1) (by norm_num) (by simp [tableU32]) (by simp [tableU32])
    (Or.inl rfl) (by norm_num)

/-- C18 (witness). Table (0,0),(1,1),(2,2) with 3 active points, queries 0.5 and 1.5. -/
theorem Interp_sectionNum_mono_witness :
    ∃ r1 r2, Interp doubleX doubleY table3 3 (1 / 2) = Except.ok r1 ∧
      Interp doubleX doubleY table3 3 (3 / 2) = Except.ok r2 ∧
      r1.sectionNum ≤ r2.sectionNum :=
  Interp_sectionNum_mono doubleX doubleY table3 3 (1 / 2) (3 / 2) (by norm_num)
    (by simp [table3]) (by norm_num) (by norm_num)

/-- C19 (witness). Table (0,0),(1,1),(2,2) with 3 active points, query 1.5. -/
theorem Interp_status_iff_sectionNum_witness :
    ∃ r, Interp doubleX doubleY table3 3 (3 / 2) = Except.ok r ∧ r.sectionNum ≤ 3 ∧
      (r.status = status_t.OK ↔ (1 ≤ r.sectionNum ∧ r.sectionNum ≤ 3 - 1)) ∧
      (r.status = status_t.X_VALUE_OUT_OF_RANGE ↔ (r.sectionNum = 0 ∨ r.sectionNum = 3)) :=
  Interp_status_iff_sectionNum doubleX doubleY table3 3 (3 / 2) (by norm_num)
    (by simp [table3]) (by norm_num)

theorem tableFall_strictlyAscending : StrictlyAscending tableFall 2 := by
  decide

theorem tableFall_fits : ∀ p ∈ tableFall.take 2, Fits30 p.xVal ∧ Fits30 p.yVal := by
  decide

theorem truncQ_neg_half : truncQ (-1 / 2) = 0 := by
  unfold truncQ
  norm_num
  decide

/-- C13 (counterexample). On the `int32_t` table (0, 1), (2, 0) with 2 active points the
query 1 returns the value 1: the quotient -1/2 is truncated to 0 and 1 is added. The
whole expression 1 + (1 - 0) * (0 - 1) / (2 - 0) = 1/2 truncates to 0. -/
theorem Interp_int32_casts_before_adding :
    StrictlyAscending tableFall 2 ∧
    Interp int32X int32Y tableFall 2 1 = Except.ok ⟨status_t.OK, some 1, 1⟩ ∧
    truncQ ((1 : ℚ) + (1 - 0) * (0 - 1) / (2 - 0)) = 0 := by
  have hres := Interp_bracket int32X int32Y (le_refl 2) (by simp [tableFall])
    (by norm_num) tableFall_strictlyAscending.nonDecreasing
    (show tableFall[0]? = some ⟨0, 1⟩ by simp [tableFall])
    (show (0 : Int) ≤ 1 by norm_num) (le_refl 1) (by norm_num)
    (show tableFall[1 - 1]? = some ⟨0, 1⟩ by simp [tableFall])
    (show tableFall[1]? = some ⟨2, 0⟩ by simp [tableFall])
    (Or.inl rfl) (show (1 : Int) ≤ 2 by norm_num)
  have hb := blend_int32 0 2 1 0 1 (by decide) (by decide) (by decide) (by decide)
    (by norm_num) (by norm_num) (by norm_num)
  have hq : ((1 - 0 : Int) : ℚ) * ((0 - 1 : Int) : ℚ) / ((2 - 0 : Int) : ℚ) = -1 / 2 := by
    norm_num
  rw [hq, truncQ_neg_half] at hb
  refine ⟨tableFall_strictlyAscending, ?_, ?_⟩
  · rw [hres, hb]
    norm_num
  · have h : (1 : ℚ) + (1 - 0) * (0 - 1) / (2 - 0) = 1 / 2 := by norm_num
    rw [h, truncQ_of_nonneg (by norm_num)]
    rw [Int.floor_eq_iff]
    norm_num

theorem tableFall_smallProducts : SmallProducts tableFall 2 := by
  intro p hp p2 hp2
  simp only [tableFall, List.take, List.mem_cons, List.mem_singleton] at hp hp2
  rcases hp with h | h | h <;> rcases hp2 with h2 | h2 | h2
  all_goals first
    | (subst h; subst h2; norm_num)
    | simp at h
    | simp at h2

/-- The table (-1, -536870912), (1073741823, 536870913), whose product of x-distance and
y-distance is above `2^60`, lies outside `SmallProducts`: there the `double` product is
not exact. -/
theorem large_product_excluded :
    ¬ SmallProducts [⟨-1, -536870912⟩, ⟨1073741823, 536870913⟩] 2 := by
  intro h
  have := h ⟨-1, -536870912⟩ (by simp) ⟨1073741823, 536870913⟩ (by simp)
  norm_num at this

/-- Exact arithmetic is one of the roundings. -/
theorem isRounding_id : IsRounding id := by
  refine ⟨fun n _ => rfl, fun x _ _ => ?_⟩
  simp only [id, sub_self, abs_zero]
  exact div_nonneg (abs_nonneg x) (by norm_num)

/-- C13 (witness). The `int32_t` table (0, 1), (2, 0) with 2 active points, query 1. -/
theorem Interp_int32_truncates_quotient_witness :
    ∃ r pPrev pI, Interp int32X int32Y tableFall 2 1 = Except.ok r ∧
      r.status = status_t.OK ∧
      tableFall[r.sectionNum - 1]? = some pPrev ∧ tableFall[r.sectionNum]? = some pI ∧
      r.yVal = some (truncQ (((1 - pPrev.xVal : Int) : ℚ) * ((pI.yVal - pPrev.yVal : Int) : ℚ)
          / ((pI.xVal - pPrev.xVal : Int) : ℚ)) + pPrev.yVal) ∧
      ∀ fl, IsRounding fl → blendInt32Rounded fl pPrev pI 1 = r.yVal :=
  Interp_int32_truncates_quotient tableFall 2 1 ⟨0, 1⟩ ⟨2, 0⟩ (le_refl 2)
    (by simp [tableFall]) (by norm_num) tableFall_strictlyAscending tableFall_fits
    tableFall_smallProducts
    (by simp [tableFall]) (by simp [tableFall]) (by norm_num) (by norm_num)

theorem table3_integerXs : IntegerXs table3 3 := by
  intro p hp
  simp only [table3, List.take, List.mem_cons, List.mem_singleton] at hp
  rcases hp with h | h | h | h
  · subst h; norm_num
  · subst h; norm_num
  · subst h; norm_num
  · simp at h

theorem table3_nonDecreasingYs : NonDecreasingYs table3 3 := by
  simp [NonDecreasingYs, table3]

/-- The table (0,0),(1,1),(2,2) of the unit tests is reproduced at its middle sample
point, its values stay between the y-values of the bracket and do not decrease with the
query. -/
theorem Interp_table3_exact :
    (∃ r, Interp doubleX doubleY table3 3 1 = Except.ok r ∧
      r.status = status_t.OK ∧ r.yVal = some 1) ∧
    (∃ r1 r2 v1 v2, Interp doubleX doubleY table3 3 (1 / 2) = Except.ok r1 ∧
      Interp doubleX doubleY table3 3 (5 / 2) = Except.ok r2 ∧
      r1.yVal = some v1 ∧ r2.yVal = some v2 ∧ v1 ≤ v2) := by
  have h0 : table3[0]? = some ⟨0, 0⟩ := by simp [table3]
  have hl : table3[3 - 1]? = some ⟨2, 2⟩ := by simp [table3]
  have hk : table3[1]? = some ⟨1, 1⟩ := by simp [table3]
  constructor
  · exact Interp_double_sample_point (by norm_num) (by simp [table3]) (by norm_num)
      table3_strictlyAscending table3_integerXs h0 hl (by norm_num) (by norm_num) hk
  · exact Interp_double_monotone (by norm_num) (by simp [table3]) (by norm_num)
      table3_strictlyAscending table3_integerXs table3_nonDecreasingYs h0 hl
      (by norm_num) (by norm_num)

end LinInterpNs
